import Mathlib

/-!
# Particle filter (`src/particle_filter.cpp`): embedding and verified properties

The C++ `double` is modelled by an ordered field `α` (the theorems instantiate it
with `ℝ`), `int` by `Int`, loop counters and `std::vector` sizes by `Nat`, and a
`std::vector` by a `List`.  The math-library calls `sqrt`, `sin`, `cos`, `exp`
and the constant `M_PI` are taken as a record of operations `Libm α`, so every
definition below is an executable function; `pow(v, 2.0)` is written `v ^ 2`.
An out-of-range `operator[]` is undefined behaviour in C++ and is modelled by
the `none` result of an `Option`.  Random draws are explicit arguments.
Vectors are taken to be shorter than `2^31`, so that the `int` loop counters
of the source do not overflow.

The ordered field stands for exact arithmetic.  What the doubles do beyond it
(rounding, overflow, underflow of `exp` to `0.0`, `NaN` from `sqrt` of a
negative number or from a division by zero) is outside this model, and so no
statement on the sign or the positivity of the computed weights is made here.
-/

namespace PF

/-- The operations of the C math library that the source calls (`sqrt`, `sin`,
`cos`, `exp`) and the constant `M_PI`, passed to the code as parameters. -/
structure Libm (α : Type) where
  sqrt : α → α
  sin : α → α
  cos : α → α
  exp : α → α
  pi : α

/-- Modelled from the spec: `struct Particle` of the header `particle_filter.h`
(not part of the sources at hand), with the field order used by the brace
initialiser in `init`: id, x, y, theta, weight. -/
structure Particle (α : Type) where
  id : Int
  x : α
  y : α
  theta : α
  weight : α

/-- Modelled from the spec: `struct LandmarkObs` (header not at hand), with the
field order of the brace initialiser in `updateWeights`: id, x, y. -/
structure LandmarkObs (α : Type) where
  id : Int
  x : α
  y : α

/-- Modelled from the spec: one entry of `Map::landmark_list` (`map.h`, not at
hand), with the fields read by `updateWeights`. -/
structure single_landmark_s (α : Type) where
  id_i : Int
  x_f : α
  y_f : α

/-- Modelled from the spec: `class Map` of `map.h` (not at hand). -/
structure Map (α : Type) where
  landmark_list : List (single_landmark_s α)

/-- Modelled from the spec: the data members of `class ParticleFilter`
(header not at hand) that the member functions read and write. -/
structure ParticleFilter (α : Type) where
  num_particles : Nat
  is_initialized : Bool
  particles : List (Particle α)
  weights : List α

/-- Modelled from the spec: the state left by the constructor of the header
(no particles, no weights, not initialised). -/
def fresh (α : Type) : ParticleFilter α :=
  { num_particles := 0, is_initialized := false, particles := [], weights := [] }

/-- Outcome of the draws from `normal_distribution<double>(mean, stddev)`:
`draw i k mean stddev` is the `k`-th sample drawn in loop iteration `i`. -/
abbrev NormalDraw (α : Type) := Nat → Nat → α → α → α

section Code

variable {α : Type} [LinearOrderedField α]

/-- The inner loop `for (l = 0; l < predicted.size(); l++)` of `dataAssociation`
for one observation `(obs_x, obs_y)`.  The list argument is `predicted` from
position `l` on; the result is the final
`(temp_delta_l, temp_delta_l_initialized, observations[obs].id)`. -/
def dataAssociation_inner (M : Libm α) (obs_x obs_y : α) :
    List (LandmarkObs α) → Nat → α → Bool → Int → α × Bool × Int
  | [], _, temp_delta_l, temp_delta_l_initialized, id =>
    (temp_delta_l, temp_delta_l_initialized, id)
  | p :: rest, l, temp_delta_l, temp_delta_l_initialized, id =>
    let delta_x := obs_x - p.x
    let delta_y := obs_y - p.y
    let delta_l := M.sqrt (delta_x ^ 2 + delta_y ^ 2)
    if (!temp_delta_l_initialized) || decide (temp_delta_l > delta_l) then
      dataAssociation_inner M obs_x obs_y rest (l + 1) delta_l true (l : Int)
    else
      dataAssociation_inner M obs_x obs_y rest (l + 1) temp_delta_l
        temp_delta_l_initialized id

/-- `ParticleFilter::dataAssociation`: the observation list after the call
(it is passed by reference and only its `id` fields are assigned). -/
def dataAssociation (M : Libm α) (predicted : List (LandmarkObs α))
    (observations : List (LandmarkObs α)) : List (LandmarkObs α) :=
  observations.map fun o =>
    { o with id := (dataAssociation_inner M o.x o.y predicted 0 0 false o.id).2.2 }

/-- `ParticleFilter::init`, body of the loop for counter `i`: three draws, then
`push_back` on both vectors. -/
def init_step (draw : NormalDraw α) (x y theta : α) (std : Nat → α)
    (f : ParticleFilter α) (i : Nat) : ParticleFilter α :=
  let particle_x := draw i 0 x (std 0)
  let particle_y := draw i 1 y (std 1)
  let particle_theta := draw i 2 theta (std 2)
  let particle_weight : α := 1
  let new_particle : Particle α :=
    ⟨(i : Int), particle_x, particle_y, particle_theta, particle_weight⟩
  { f with particles := f.particles ++ [new_particle],
           weights := f.weights ++ [particle_weight] }

/-- `ParticleFilter::init`. -/
def init (draw : NormalDraw α) (x y theta : α) (std : Nat → α)
    (f : ParticleFilter α) : ParticleFilter α :=
  let f1 := { f with num_particles := 200 }
  let f2 := (List.range f1.num_particles).foldl (init_step draw x y theta std) f1
  { f2 with is_initialized := true }

/-- The deterministic part of one iteration of `prediction`: the three
assignments of the taken branch, in source order (`x` and `y` are computed from
the heading before `theta` is assigned). -/
def prediction_move (M : Libm α) (delta_t velocity yaw_rate : α)
    (p : Particle α) : Particle α :=
  if yaw_rate = 0 then
    let p1 := { p with x := p.x + (velocity * delta_t) * M.cos p.theta }
    { p1 with y := p1.y + (velocity * delta_t) * M.sin p1.theta }
  else
    let p1 := { p with x := p.x + (velocity / yaw_rate) *
      (M.sin (p.theta + (yaw_rate * delta_t)) - M.sin p.theta) }
    let p2 := { p1 with y := p1.y + (velocity / yaw_rate) *
      (M.cos p1.theta - M.cos (p1.theta + (yaw_rate * delta_t))) }
    { p2 with theta := p2.theta + (yaw_rate * delta_t) }

/-- The noise part of iteration `i` of `prediction`: the three distributions are
built from the moved particle, then the three fields are assigned the draws. -/
def prediction_noise (draw : NormalDraw α) (std_pos : Nat → α) (i : Nat)
    (p : Particle α) : Particle α :=
  { p with x := draw i 0 p.x (std_pos 0),
           y := draw i 1 p.y (std_pos 1),
           theta := draw i 2 p.theta (std_pos 2) }

/-- `ParticleFilter::prediction`, body of the loop for counter `i`;
`particles[i]` out of range gives `none`. -/
def prediction_step (M : Libm α) (draw : NormalDraw α) (delta_t : α)
    (std_pos : Nat → α) (velocity yaw_rate : α)
    (particles : List (Particle α)) (i : Nat) : Option (List (Particle α)) :=
  match particles[i]? with
  | none => none
  | some p =>
    some (particles.set i
      (prediction_noise draw std_pos i (prediction_move M delta_t velocity yaw_rate p)))

/-- `ParticleFilter::prediction`. -/
def prediction (M : Libm α) (draw : NormalDraw α) (delta_t : α)
    (std_pos : Nat → α) (velocity yaw_rate : α)
    (f : ParticleFilter α) : Option (ParticleFilter α) :=
  match (List.range f.num_particles).foldlM
      (prediction_step M draw delta_t std_pos velocity yaw_rate) f.particles with
  | none => none
  | some ps => some { f with particles := ps }

/-- The loop of `updateWeights` over `map_landmarks.landmark_list` that fills
`predicted_landmarks` for a particle at `(current_x, current_y, current_theta)`. -/
def predicted_landmarks (M : Libm α) (sensor_range : α) (map_landmarks : Map α)
    (current_x current_y current_theta : α) : List (LandmarkObs α) :=
  map_landmarks.landmark_list.foldl (fun acc lm =>
    let l_id := lm.id_i
    let delta_x := lm.x_f - current_x
    let delta_y := lm.y_f - current_y
    let distance := M.sqrt (delta_x ^ 2 + delta_y ^ 2)
    if distance ≤ sensor_range then
      let l_x := delta_x * M.cos current_theta + delta_y * M.sin current_theta
      let l_y := delta_y * M.cos current_theta - delta_x * M.sin current_theta
      acc ++ [⟨l_id, l_x, l_y⟩]
    else acc) []

/-- The access `predicted_landmarks[l_id]` with an `int` index: defined only
for `0 ≤ l_id < size`. -/
def at_index (v : List (LandmarkObs α)) (l_id : Int) : Option (LandmarkObs α) :=
  if 0 ≤ l_id then v[l_id.toNat]? else none

/-- The loop of `updateWeights` over the observations that accumulates
`new_weight`; the list argument is the observations still to visit. -/
def weight_loop (M : Libm α) (std_landmark : Nat → α)
    (predicted_landmarks : List (LandmarkObs α)) :
    List (LandmarkObs α) → α → Option α
  | [], new_weight => some new_weight
  | o :: rest, new_weight =>
    match at_index predicted_landmarks o.id with
    | none => none
    | some c =>
      let delta_x := o.x - c.x
      let delta_y := o.y - c.y
      let numerator := M.exp (-0.5 *
        (delta_x ^ 2 * std_landmark 0 + delta_y ^ 2 * std_landmark 1))
      let denominator := M.sqrt (2 * M.pi * std_landmark 0 * std_landmark 1)
      weight_loop M std_landmark predicted_landmarks rest
        (new_weight * numerator / denominator)

/-- The state the particle loop of `updateWeights` carries from one iteration
to the next: the by-value parameter `observations` (written by
`dataAssociation`), `particles` and `weights`. -/
structure UpdateState (α : Type) where
  observations : List (LandmarkObs α)
  particles : List (Particle α)
  weights : List α

/-- `ParticleFilter::updateWeights`, body of the loop for counter `i`. -/
def updateWeights_step (M : Libm α) (sensor_range : α) (std_landmark : Nat → α)
    (map_landmarks : Map α) (s : UpdateState α) (i : Nat) : Option (UpdateState α) :=
  match s.particles[i]? with
  | none => none
  | some p =>
    let predicted := predicted_landmarks M sensor_range map_landmarks p.x p.y p.theta
    let observations := dataAssociation M predicted s.observations
    match weight_loop M std_landmark predicted observations 1 with
    | none => none
    | some new_weight =>
      if i < s.weights.length then
        some { observations := observations,
               particles := s.particles.set i { p with weight := new_weight },
               weights := s.weights.set i new_weight }
      else none

/-- `ParticleFilter::updateWeights`. -/
def updateWeights (M : Libm α) (sensor_range : α) (std_landmark : Nat → α)
    (observations : List (LandmarkObs α)) (map_landmarks : Map α)
    (f : ParticleFilter α) : Option (ParticleFilter α) :=
  match (List.range f.num_particles).foldlM
      (updateWeights_step M sensor_range std_landmark map_landmarks)
      { observations := observations, particles := f.particles, weights := f.weights } with
  | none => none
  | some s => some { f with particles := s.particles, weights := s.weights }

/-- `ParticleFilter::resample`, body of the loop for counter `counter`:
`index counter` is the value of `index(gen)` in that iteration. -/
def resample_step (index : Nat → Nat) (particles : List (Particle α))
    (resampled_particles : List (Particle α)) (counter : Nat) :
    Option (List (Particle α)) :=
  match particles[index counter]? with
  | none => none
  | some p => some (resampled_particles ++ [p])

/-- `ParticleFilter::resample`.  The draws `index` come from a
`discrete_distribution<int>` over `weights`, whose values lie in
`0 .. weights.size() - 1`. -/
def resample (index : Nat → Nat) (f : ParticleFilter α) : Option (ParticleFilter α) :=
  match (List.range f.particles.length).foldlM (resample_step index f.particles) [] with
  | none => none
  | some resampled_particles => some { f with particles := resampled_particles }

end Code

/-! ## Definitions used to state the properties -/

section Aux

variable {α : Type} [LinearOrderedField α]

/-- The distance `delta_l` the inner loop of `dataAssociation` computes between
the observation `(obs_x, obs_y)` and the candidate `c`. -/
def delta_l (M : Libm α) (obs_x obs_y : α) (c : LandmarkObs α) : α :=
  M.sqrt ((obs_x - c.x) ^ 2 + (obs_y - c.y) ^ 2)

/-- What the inner loop of `dataAssociation` knows after it has visited the
candidates `seen`: nothing was visited and the flag is still unset, or `id` is
the first position of `seen` at minimal distance and `t` is that distance. -/
def NearestSoFar (M : Libm α) (obs_x obs_y : α) (seen : List (LandmarkObs α))
    (t : α) (b : Bool) (id : Int) : Prop :=
  (b = false ∧ seen = []) ∨
  (b = true ∧ ∃ (k : Nat) (c : LandmarkObs α), id = (k : Int) ∧
    seen[k]? = some c ∧ t = delta_l M obs_x obs_y c ∧
    (∀ c' ∈ seen, t ≤ delta_l M obs_x obs_y c') ∧
    (∀ (j : Nat) (c' : LandmarkObs α), j < k → seen[j]? = some c' →
      t < delta_l M obs_x obs_y c'))

/-- The coordinates of an observation, the part `dataAssociation` never writes. -/
def coords (o : LandmarkObs α) : α × α := (o.x, o.y)

/-- The candidate list `updateWeights` builds for the particle `p`. -/
def candidates (M : Libm α) (sensor_range : α) (map_landmarks : Map α)
    (p : Particle α) : List (LandmarkObs α) :=
  predicted_landmarks M sensor_range map_landmarks p.x p.y p.theta

/-- Association and weighting for the particle `p` alone, on the observation
list `observations`: the value of `new_weight` after the observation loop, or
`none` when a lookup `predicted_landmarks[l_id]` is out of range. -/
def particle_weight (M : Libm α) (sensor_range : α) (std_landmark : Nat → α)
    (map_landmarks : Map α) (observations : List (LandmarkObs α))
    (p : Particle α) : Option α :=
  weight_loop M std_landmark (candidates M sensor_range map_landmarks p)
    (dataAssociation M (candidates M sensor_range map_landmarks p) observations) 1

/-- One call a client makes on an initialised filter, with its arguments and
the outcome of its random draws. -/
inductive Call (α : Type) where
  | prediction (draw : NormalDraw α) (delta_t : α) (std_pos : Nat → α)
      (velocity yaw_rate : α)
  | updateWeights (sensor_range : α) (std_landmark : Nat → α)
      (observations : List (LandmarkObs α)) (map_landmarks : Map α)
  | resample (index : Nat → Nat)

/-- The effect of one call on the filter. -/
def Call.run (M : Libm α) : Call α → ParticleFilter α → Option (ParticleFilter α)
  | Call.prediction draw delta_t std_pos velocity yaw_rate, f =>
    PF.prediction M draw delta_t std_pos velocity yaw_rate f
  | Call.updateWeights sensor_range std_landmark observations map_landmarks, f =>
    PF.updateWeights M sensor_range std_landmark observations map_landmarks f
  | Call.resample index, f => PF.resample index f

/-- The effect of a finite sequence of calls, first call first. -/
def run_calls (M : Libm α) (calls : List (Call α)) (f : ParticleFilter α) :
    Option (ParticleFilter α) :=
  calls.foldlM (fun g c => c.run M g) f

/-- The condition under which a call stays within defined behaviour on the
filter `f`: the draws of `resample` are values of a distribution over
`weights` (below `weights.size()`), and `updateWeights` looks no observation
up in an empty candidate list. -/
def Call.defined (M : Libm α) : Call α → ParticleFilter α → Prop
  | Call.prediction _ _ _ _ _, _ => True
  | Call.updateWeights sensor_range _ observations map_landmarks, f =>
    observations = [] ∨
      ∀ p ∈ f.particles, candidates M sensor_range map_landmarks p ≠ []
  | Call.resample index, f =>
    ∀ c : Nat, c < f.particles.length → index c < f.weights.length

/-- Every call of the sequence stays within defined behaviour on the filter it
is made on. -/
def calls_defined (M : Libm α) : List (Call α) → ParticleFilter α → Prop
  | [], _ => True
  | c :: cs, f => c.defined M f ∧ ∀ f', c.run M f = some f' → calls_defined M cs f'

/-- The weight vector agrees with the particles: `weights[i]` is
`particles[i].weight` at every position. -/
def weights_consistent (f : ParticleFilter α) : Prop :=
  f.weights = f.particles.map fun p => p.weight

/-- The cardinality invariant: `N = num_particles = 200` particles and weights. -/
def has_N_particles (f : ParticleFilter α) : Prop :=
  f.num_particles = 200 ∧ f.particles.length = 200 ∧ f.weights.length = 200

end Aux

/-! ## Properties -/

section Association

variable {α : Type} [LinearOrderedField α]

theorem dataAssociation_inner_inv (M : Libm α) (obs_x obs_y : α)
    (rest : List (LandmarkObs α)) :
    ∀ (seen : List (LandmarkObs α)) (t : α) (b : Bool) (id : Int),
      NearestSoFar M obs_x obs_y seen t b id →
      NearestSoFar M obs_x obs_y (seen ++ rest)
        (dataAssociation_inner M obs_x obs_y rest seen.length t b id).1
        (dataAssociation_inner M obs_x obs_y rest seen.length t b id).2.1
        (dataAssociation_inner M obs_x obs_y rest seen.length t b id).2.2 := by
  induction rest with
  | nil => intro seen t b id h; simpa [dataAssociation_inner] using h
  | cons p rest ih =>
    intro seen t b id h
    have hlen : (seen ++ [p]).length = seen.length + 1 := by simp
    have happ : seen ++ p :: rest = (seen ++ [p]) ++ rest := by simp
    rw [happ]
    unfold dataAssociation_inner
    simp only []
    split
    · rename_i hc
      rw [← hlen]
      apply ih
      right
      refine ⟨rfl, seen.length, p, rfl, by simp, rfl, ?_, ?_⟩
      · intro c' hc'
        rcases h with ⟨_, hnil⟩ | ⟨hb, k, c, _, _, _, hmin, _⟩
        · subst hnil
          simp only [List.nil_append, List.mem_singleton] at hc'
          subst hc'
          exact le_refl _
        · simp only [hb, Bool.not_true, Bool.false_or, decide_eq_true_eq] at hc
          rcases List.mem_append.1 hc' with h1 | h1
          · exact le_of_lt (lt_of_lt_of_le hc (hmin c' h1))
          · simp only [List.mem_singleton] at h1
            subst h1
            exact le_refl _
      · intro j c' hj hjc
        rcases h with ⟨_, hnil⟩ | ⟨hb, k, c, _, _, _, hmin, _⟩
        · subst hnil
          exact absurd hj (Nat.not_lt_zero j)
        · simp only [hb, Bool.not_true, Bool.false_or, decide_eq_true_eq] at hc
          rw [List.getElem?_append_left hj] at hjc
          exact lt_of_lt_of_le hc (hmin c' (List.getElem?_mem hjc))
    · rename_i hc
      rw [← hlen]
      apply ih
      rcases h with ⟨hb, _⟩ | ⟨hb, k, c, hid, hk, ht, hmin, hfirst⟩
      · simp [hb] at hc
      · simp only [hb, Bool.not_true, Bool.false_or, decide_eq_true_eq, not_lt] at hc
        right
        have hkl : k < seen.length := (List.getElem?_eq_some_iff.1 hk).1
        refine ⟨hb, k, c, hid, ?_, ht, ?_, ?_⟩
        · rw [List.getElem?_append_left hkl]; exact hk
        · intro c' hc'
          rcases List.mem_append.1 hc' with h1 | h1
          · exact hmin c' h1
          · simp only [List.mem_singleton] at h1
            subst h1
            exact hc
        · intro j c' hj hjc
          rw [List.getElem?_append_left (lt_trans hj hkl)] at hjc
          exact hfirst j c' hj hjc

/-- For a non-empty candidate list the id the inner loop leaves is the first
position at minimal distance. -/
theorem dataAssociation_inner_nearest (M : Libm α) (obs_x obs_y : α)
    (predicted : List (LandmarkObs α)) (hne : predicted ≠ []) (id0 : Int) :
    ∃ (k : Nat) (c : LandmarkObs α),
      (dataAssociation_inner M obs_x obs_y predicted 0 0 false id0).2.2 = (k : Int) ∧
      predicted[k]? = some c ∧
      (∀ c' ∈ predicted, delta_l M obs_x obs_y c ≤ delta_l M obs_x obs_y c') ∧
      (∀ (j : Nat) (c' : LandmarkObs α), j < k → predicted[j]? = some c' →
        delta_l M obs_x obs_y c < delta_l M obs_x obs_y c') := by
  have h := dataAssociation_inner_inv M obs_x obs_y predicted [] 0 false id0
    (Or.inl ⟨rfl, rfl⟩)
  simp only [List.nil_append, List.length_nil] at h
  rcases h with ⟨_, hnil⟩ | ⟨_, k, c, hid, hk, ht, hmin, hfirst⟩
  · exact absurd hnil hne
  · exact ⟨k, c, hid, hk, fun c' hc' => ht ▸ hmin c' hc',
      fun j c' hj hjc => ht ▸ hfirst j c' hj hjc⟩

theorem dataAssociation_length (M : Libm α) (predicted observations : List (LandmarkObs α)) :
    (dataAssociation M predicted observations).length = observations.length := by
  simp [dataAssociation]

theorem dataAssociation_getElem? (M : Libm α) (predicted observations : List (LandmarkObs α))
    (n : Nat) :
    (dataAssociation M predicted observations)[n]? =
      (observations[n]?).map fun o =>
        { o with id := (dataAssociation_inner M o.x o.y predicted 0 0 false o.id).2.2 } := by
  simp [dataAssociation]

theorem dataAssociation_inner_cons_unset (M : Libm α) (obs_x obs_y : α)
    (p : LandmarkObs α) (rest : List (LandmarkObs α)) (l : Nat) (t : α) (id : Int) :
    dataAssociation_inner M obs_x obs_y (p :: rest) l t false id =
      dataAssociation_inner M obs_x obs_y rest (l + 1)
        (M.sqrt ((obs_x - p.x) ^ 2 + (obs_y - p.y) ^ 2)) true (l : Int) := by
  simp [dataAssociation_inner]

theorem dataAssociation_nil (M : Libm α) (observations : List (LandmarkObs α)) :
    dataAssociation M [] observations = observations := by
  simp [dataAssociation, dataAssociation_inner]

theorem dataAssociation_coords (M : Libm α) (predicted observations : List (LandmarkObs α)) :
    (dataAssociation M predicted observations).map coords = observations.map coords := by
  simp [dataAssociation, coords, Function.comp_def]

/-- With a non-empty candidate list the result of `dataAssociation` does not
depend on the ids the observations carried before. -/
theorem dataAssociation_congr (M : Libm α) (predicted : List (LandmarkObs α))
    (hne : predicted ≠ []) :
    ∀ (o1 o2 : List (LandmarkObs α)), o1.map coords = o2.map coords →
      dataAssociation M predicted o1 = dataAssociation M predicted o2 := by
  obtain ⟨c, rest, rfl⟩ := List.exists_cons_of_ne_nil hne
  intro o1
  induction o1 with
  | nil =>
    intro o2 h
    cases o2 with
    | nil => rfl
    | cons b bs => simp at h
  | cons a as ih =>
    intro o2 h
    cases o2 with
    | nil => simp at h
    | cons b bs =>
      simp only [List.map_cons, List.cons.injEq] at h
      obtain ⟨hab, htl⟩ := h
      have hx : a.x = b.x := congrArg Prod.fst hab
      have hy : a.y = b.y := congrArg Prod.snd hab
      have hcons : ∀ (o : LandmarkObs α) (os : List (LandmarkObs α)),
          dataAssociation M (c :: rest) (o :: os) =
            { o with id := (dataAssociation_inner M o.x o.y (c :: rest) 0 0 false o.id).2.2 } ::
              dataAssociation M (c :: rest) os := fun _ _ => rfl
      rw [hcons, hcons, ih bs htl]
      simp only [dataAssociation_inner_cons_unset, hx, hy]

theorem weight_loop_nil_candidates (M : Libm α) (std_landmark : Nat → α)
    (observations : List (LandmarkObs α)) (w : α) :
    weight_loop M std_landmark [] observations w =
      if observations.isEmpty then some w else none := by
  cases observations <;> simp [weight_loop, at_index]

/-- The weight loop run after association depends on the observation list
only through its coordinates, whatever the candidate list. -/
theorem weight_after_association_congr (M : Libm α) (std_landmark : Nat → α)
    (predicted o1 o2 : List (LandmarkObs α)) (h : o1.map coords = o2.map coords) :
    weight_loop M std_landmark predicted (dataAssociation M predicted o1) 1 =
      weight_loop M std_landmark predicted (dataAssociation M predicted o2) 1 := by
  by_cases hne : predicted = []
  · subst hne
    have hl : o1.length = o2.length := by
      have := congrArg List.length h
      simpa using this
    rw [dataAssociation_nil, dataAssociation_nil, weight_loop_nil_candidates,
      weight_loop_nil_candidates]
    cases o1 <;> cases o2 <;> simp at hl <;> simp
  · rw [dataAssociation_congr M predicted hne o1 o2 h]

end Association

section Prediction

variable {α : Type} [LinearOrderedField α]

/-- The loop of `prediction` run for the counters below `n` succeeds when
`n` particles exist; it rewrites exactly the particles at positions below `n`. -/
theorem prediction_loop_spec (M : Libm α) (draw : NormalDraw α) (delta_t : α)
    (std_pos : Nat → α) (velocity yaw_rate : α) (ps : List (Particle α)) :
    ∀ n : Nat, n ≤ ps.length →
      ∃ r : List (Particle α),
        (List.range n).foldlM
          (prediction_step M draw delta_t std_pos velocity yaw_rate) ps = some r ∧
        r.length = ps.length ∧
        ∀ i : Nat, r[i]? =
          if i < n then
            (ps[i]?).map fun p =>
              prediction_noise draw std_pos i (prediction_move M delta_t velocity yaw_rate p)
          else ps[i]? := by
  intro n
  induction n with
  | zero => intro _; exact ⟨ps, by simp, rfl, by simp⟩
  | succ n ih =>
    intro hn
    obtain ⟨r, hr, hlen, hget⟩ := ih (Nat.le_of_succ_le hn)
    have hnr : n < r.length := by omega
    have hrn : r[n]? = ps[n]? := by rw [hget n]; simp
    have hpn : ps[n]? = some (ps[n]) := List.getElem?_eq_getElem (by omega)
    refine ⟨r.set n (prediction_noise draw std_pos n
      (prediction_move M delta_t velocity yaw_rate ps[n])), ?_, by simp [hlen], ?_⟩
    · rw [List.range_succ, List.foldlM_append, hr]
      simp [prediction_step, hrn, hpn]
    · intro i
      by_cases hin : i = n
      · subst hin
        simp [hnr, hpn]
      · rw [List.getElem?_set_ne (Ne.symm hin), hget i]
        by_cases hlt : i < n
        · simp [hlt, Nat.lt_succ_of_lt hlt]
        · have : ¬ i < n + 1 := by omega
          simp [hlt, this]

/-- With `num_particles` equal to the number of particles, `prediction` succeeds
and rewrites every particle: motion step, then the three noise draws. -/
theorem prediction_eq (M : Libm α) (draw : NormalDraw α) (delta_t : α)
    (std_pos : Nat → α) (velocity yaw_rate : α) (f : ParticleFilter α)
    (hN : f.num_particles = f.particles.length) :
    ∃ r : List (Particle α),
      prediction M draw delta_t std_pos velocity yaw_rate f =
        some { f with particles := r } ∧
      r.length = f.particles.length ∧
      ∀ i : Nat, r[i]? = (f.particles[i]?).map fun p =>
        prediction_noise draw std_pos i (prediction_move M delta_t velocity yaw_rate p) := by
  obtain ⟨r, hr, hlen, hget⟩ := prediction_loop_spec M draw delta_t std_pos velocity
    yaw_rate f.particles f.num_particles (le_of_eq hN)
  refine ⟨r, by simp [prediction, hr], hlen, ?_⟩
  intro i
  rw [hget i]
  by_cases hlt : i < f.num_particles
  · simp [hlt]
  · have : f.particles[i]? = none := List.getElem?_eq_none (by omega)
    simp [hlt, this]

/-- With noise draws that return their mean, `prediction` maps the particle
list by the motion step. -/
theorem prediction_zero_noise (M : Libm α) (draw : NormalDraw α) (delta_t : α)
    (std_pos : Nat → α) (velocity yaw_rate : α) (f : ParticleFilter α)
    (hN : f.num_particles = f.particles.length)
    (hzero : ∀ (i k : Nat) (mean : α), draw i k mean (std_pos k) = mean) :
    prediction M draw delta_t std_pos velocity yaw_rate f =
      some { f with particles :=
        f.particles.map (prediction_move M delta_t velocity yaw_rate) } := by
  obtain ⟨r, hr, _, hget⟩ := prediction_eq M draw delta_t std_pos velocity yaw_rate f hN
  have : r = f.particles.map (prediction_move M delta_t velocity yaw_rate) := by
    apply List.ext_getElem?
    intro i
    rw [hget i, List.getElem?_map]
    congr 1
    funext p
    simp [prediction_noise, hzero]
  rw [hr, this]

end Prediction

section Lookup

variable {α : Type}

theorem at_index_natCast (v : List (LandmarkObs α)) (l : Nat) :
    at_index v (l : Int) = v[l]? := by
  simp [at_index]

end Lookup

section Weights

variable {α : Type} [LinearOrderedField α]

theorem updateWeights_step_eq (M : Libm α) (sensor_range : α) (std_landmark : Nat → α)
    (map_landmarks : Map α) (s : UpdateState α) (i : Nat) (p : Particle α)
    (hp : s.particles[i]? = some p) :
    updateWeights_step M sensor_range std_landmark map_landmarks s i =
      match weight_loop M std_landmark (candidates M sensor_range map_landmarks p)
          (dataAssociation M (candidates M sensor_range map_landmarks p) s.observations) 1 with
      | none => none
      | some new_weight =>
        if i < s.weights.length then
          some { observations :=
                   dataAssociation M (candidates M sensor_range map_landmarks p) s.observations,
                 particles := s.particles.set i { p with weight := new_weight },
                 weights := s.weights.set i new_weight }
        else none := by
  simp only [updateWeights_step, hp, candidates]

/-- The particle loop of `updateWeights` run for the counters below `n`: either
every visited particle got the weight `particle_weight` computes for it from the
caller's observation list, or some visited particle made a lookup go out of
range and the loop has no result. -/
theorem updateWeights_loop_spec (M : Libm α) (sensor_range : α) (std_landmark : Nat → α)
    (map_landmarks : Map α) (observations : List (LandmarkObs α))
    (ps : List (Particle α)) (ws : List α) (hlen : ws.length = ps.length) :
    ∀ n : Nat, n ≤ ps.length →
      (∃ s : UpdateState α,
        (List.range n).foldlM
          (updateWeights_step M sensor_range std_landmark map_landmarks)
          { observations := observations, particles := ps, weights := ws } = some s ∧
        s.observations.map coords = observations.map coords ∧
        s.particles.length = ps.length ∧ s.weights.length = ws.length ∧
        (∀ i : Nat, i < n → ∃ (p : Particle α) (w : α), ps[i]? = some p ∧
          particle_weight M sensor_range std_landmark map_landmarks observations p = some w ∧
          s.particles[i]? = some { p with weight := w } ∧ s.weights[i]? = some w) ∧
        (∀ i : Nat, n ≤ i → s.particles[i]? = ps[i]? ∧ s.weights[i]? = ws[i]?)) ∨
      ((List.range n).foldlM
          (updateWeights_step M sensor_range std_landmark map_landmarks)
          { observations := observations, particles := ps, weights := ws } = none ∧
        ∃ (i : Nat) (p : Particle α), i < n ∧ ps[i]? = some p ∧
          particle_weight M sensor_range std_landmark map_landmarks observations p = none) := by
  intro n
  induction n with
  | zero =>
    intro _
    left
    exact ⟨_, rfl, rfl, rfl, rfl, fun i hi => absurd hi (Nat.not_lt_zero i),
      fun i _ => ⟨rfl, rfl⟩⟩
  | succ n ih =>
    intro hn
    rw [List.range_succ, List.foldlM_append]
    rcases ih (Nat.le_of_succ_le hn) with ⟨s, hs, hc, hpl, hwl, hlt, hge⟩ | ⟨hs, i, p, hi, hp, hw⟩
    · have hpn : ps[n]? = some (ps[n]) := List.getElem?_eq_getElem (by omega)
      have hsn : s.particles[n]? = some (ps[n]) := by rw [(hge n (le_refl n)).1, hpn]
      have hwe := weight_after_association_congr M std_landmark
        (candidates M sensor_range map_landmarks ps[n]) s.observations observations hc
      have hstep := updateWeights_step_eq M sensor_range std_landmark map_landmarks s n
        ps[n] hsn
      rw [hwe] at hstep
      have hnw : n < s.weights.length := by omega
      cases hpw : particle_weight M sensor_range std_landmark map_landmarks observations ps[n] with
      | none =>
        right
        have hpw' := hpw
        unfold particle_weight at hpw'
        rw [hpw'] at hstep
        refine ⟨?_, n, ps[n], Nat.lt_succ_self n, hpn, hpw⟩
        rw [hs]
        simp [hstep]
      | some w =>
        left
        have hpw' := hpw
        unfold particle_weight at hpw'
        rw [hpw'] at hstep
        simp only [hnw, if_true] at hstep
        refine ⟨{ observations :=
                    dataAssociation M (candidates M sensor_range map_landmarks ps[n]) s.observations,
                  particles := s.particles.set n { ps[n] with weight := w },
                  weights := s.weights.set n w }, ?_, ?_, ?_, ?_, ?_, ?_⟩
        · rw [hs]
          simp [hstep]
        · simp only [dataAssociation_coords, hc]
        · simp [hpl]
        · simp [hwl]
        · intro i hi
          by_cases hin : i = n
          · rw [hin]
            have hnp : n < s.particles.length := by omega
            refine ⟨ps[n], w, hpn, hpw, ?_, ?_⟩
            · rw [List.getElem?_set_self hnp]
            · rw [List.getElem?_set_self hnw]
          · have hi' : i < n := by omega
            obtain ⟨p, w', h1, h2, h3, h4⟩ := hlt i hi'
            refine ⟨p, w', h1, h2, ?_, ?_⟩
            · rw [List.getElem?_set_ne (Ne.symm hin)]; exact h3
            · rw [List.getElem?_set_ne (Ne.symm hin)]; exact h4
        · intro i hi
          have hin : n ≠ i := by omega
          rw [List.getElem?_set_ne hin, List.getElem?_set_ne hin]
          exact hge i (by omega)
    · right
      refine ⟨?_, i, p, Nat.lt_succ_of_lt hi, hp, hw⟩
      rw [hs]
      rfl

/-- With `num_particles` and the length of `weights` equal to the number of
particles, `updateWeights` either gives every particle the weight
`particle_weight` computes for it alone, in both places, and changes nothing
else, or has no result because some particle's lookup goes out of range. -/
theorem updateWeights_spec (M : Libm α) (sensor_range : α) (std_landmark : Nat → α)
    (observations : List (LandmarkObs α)) (map_landmarks : Map α) (f : ParticleFilter α)
    (hN : f.num_particles = f.particles.length)
    (hW : f.weights.length = f.particles.length) :
    (∃ f' : ParticleFilter α,
      updateWeights M sensor_range std_landmark observations map_landmarks f = some f' ∧
      f'.num_particles = f.num_particles ∧ f'.is_initialized = f.is_initialized ∧
      f'.particles.length = f.particles.length ∧ f'.weights.length = f.weights.length ∧
      ∀ i : Nat, i < f.particles.length → ∃ (p : Particle α) (w : α),
        f.particles[i]? = some p ∧
        particle_weight M sensor_range std_landmark map_landmarks observations p = some w ∧
        f'.particles[i]? = some { p with weight := w } ∧ f'.weights[i]? = some w) ∨
    (updateWeights M sensor_range std_landmark observations map_landmarks f = none ∧
      ∃ (i : Nat) (p : Particle α), f.particles[i]? = some p ∧
        particle_weight M sensor_range std_landmark map_landmarks observations p = none) := by
  rcases updateWeights_loop_spec M sensor_range std_landmark map_landmarks observations
    f.particles f.weights hW f.num_particles (le_of_eq hN) with
    ⟨s, hs, _, hpl, hwl, hlt, _⟩ | ⟨hs, i, p, _, hp, hw⟩
  · left
    refine ⟨{ f with particles := s.particles, weights := s.weights }, ?_, rfl, rfl,
      hpl, hwl, ?_⟩
    · simp [updateWeights, hs]
    · intro i hi
      exact hlt i (by omega)
  · right
    exact ⟨by simp [updateWeights, hs], i, p, hp, hw⟩

/-- The weight loop over observations whose ids are all positions of the
candidate list succeeds: it multiplies the accumulator, observation by
observation, by the likelihood of the residual against the looked-up candidate. -/
theorem weight_loop_matched (M : Libm α) (std_landmark : Nat → α)
    (predicted : List (LandmarkObs α)) (g : LandmarkObs α → LandmarkObs α)
    (hx : ∀ o, (g o).x = o.x) (hy : ∀ o, (g o).y = o.y)
    (hid : ∀ o, ∃ (l : Nat) (c : LandmarkObs α), (g o).id = (l : Int) ∧ predicted[l]? = some c) :
    ∀ (observations : List (LandmarkObs α)) (w : α),
      ∃ matched : List (LandmarkObs α),
        List.Forall₂ (fun o' c => ∃ l : Nat, o'.id = (l : Int) ∧ predicted[l]? = some c)
          (observations.map g) matched ∧
        weight_loop M std_landmark predicted (observations.map g) w =
          some ((List.zip observations matched).foldl (fun acc oc =>
            acc * M.exp (-0.5 * ((oc.1.x - oc.2.x) ^ 2 * std_landmark 0 +
                (oc.1.y - oc.2.y) ^ 2 * std_landmark 1)) /
              M.sqrt (2 * M.pi * std_landmark 0 * std_landmark 1)) w) := by
  intro observations
  induction observations with
  | nil => intro w; exact ⟨[], List.Forall₂.nil, rfl⟩
  | cons o os ih =>
    intro w
    obtain ⟨l, c, hl, hc⟩ := hid o
    obtain ⟨matched, hm, hwl⟩ := ih
      (w * M.exp (-0.5 * ((o.x - c.x) ^ 2 * std_landmark 0 +
          (o.y - c.y) ^ 2 * std_landmark 1)) /
        M.sqrt (2 * M.pi * std_landmark 0 * std_landmark 1))
    refine ⟨c :: matched, List.Forall₂.cons ⟨l, hl, hc⟩ hm, ?_⟩
    simp only [List.map_cons, weight_loop, hl, at_index_natCast, hc, hx, hy, hwl,
      List.zip_cons_cons, List.foldl_cons]

/-- The weight loop over observations that all have the residual `(dx, dy)`
against their looked-up candidate multiplies the accumulator by the same
likelihood once per observation. -/
theorem weight_loop_const_residual (M : Libm α) (std_landmark : Nat → α)
    (predicted : List (LandmarkObs α)) (dx dy : α) :
    ∀ (observations : List (LandmarkObs α)) (w : α),
      (∀ o ∈ observations, ∃ c : LandmarkObs α,
        at_index predicted o.id = some c ∧ o.x - c.x = dx ∧ o.y - c.y = dy) →
      weight_loop M std_landmark predicted observations w =
        some (w * (M.exp (-0.5 * (dx ^ 2 * std_landmark 0 + dy ^ 2 * std_landmark 1)) /
          M.sqrt (2 * M.pi * std_landmark 0 * std_landmark 1)) ^ observations.length) := by
  intro observations
  induction observations with
  | nil => intro w _; simp [weight_loop]
  | cons o os ih =>
    intro w h
    obtain ⟨c, hc, hdx, hdy⟩ := h o (List.mem_cons_self o os)
    have hrest := ih (w * M.exp (-0.5 * (dx ^ 2 * std_landmark 0 + dy ^ 2 * std_landmark 1)) /
        M.sqrt (2 * M.pi * std_landmark 0 * std_landmark 1))
      (fun o' ho' => h o' (List.mem_cons_of_mem o ho'))
    simp only [weight_loop, hc, hdx, hdy, hrest, List.length_cons, Option.some.injEq]
    rw [pow_succ]
    ring

/-- A particle with an empty candidate list and a non-empty observation list
makes the lookup `predicted_landmarks[l_id]` go out of range. -/
theorem particle_weight_empty_candidates (M : Libm α) (sensor_range : α)
    (std_landmark : Nat → α) (map_landmarks : Map α)
    (observations : List (LandmarkObs α)) (p : Particle α)
    (hempty : candidates M sensor_range map_landmarks p = [])
    (hobs : observations ≠ []) :
    particle_weight M sensor_range std_landmark map_landmarks observations p = none := by
  unfold particle_weight
  rw [hempty, dataAssociation_nil, weight_loop_nil_candidates]
  cases observations with
  | nil => exact absurd rfl hobs
  | cons o os => simp

/-- When some particle has no landmark in range and there is an observation,
`updateWeights` has no result: the lookup in the empty candidate list is out
of range. -/
theorem updateWeights_empty_candidates (M : Libm α) (sensor_range : α)
    (std_landmark : Nat → α) (observations : List (LandmarkObs α))
    (map_landmarks : Map α) (f : ParticleFilter α)
    (hN : f.num_particles = f.particles.length)
    (hW : f.weights.length = f.particles.length)
    (i : Nat) (p : Particle α) (hp : f.particles[i]? = some p)
    (hempty : candidates M sensor_range map_landmarks p = [])
    (hobs : observations ≠ []) :
    updateWeights M sensor_range std_landmark observations map_landmarks f = none := by
  rcases updateWeights_spec M sensor_range std_landmark observations map_landmarks f hN hW with
    ⟨_, _, _, _, _, _, hall⟩ | ⟨hnone, _⟩
  · obtain ⟨p', w, hp', hw, _, _⟩ := hall i (List.getElem?_eq_some_iff.1 hp).1
    have hpp : p' = p := Option.some.inj (hp'.symm.trans hp)
    subst hpp
    rw [particle_weight_empty_candidates M sensor_range std_landmark map_landmarks
      observations p' hempty hobs] at hw
    exact absurd hw (by simp)
  · exact hnone

end Weights

section Resampling

variable {α : Type}

/-- The loop of `resample` run for the counters below `n`: either it has
appended, for each counter, the particle at the drawn index, or some drawn
index was out of range and the loop has no result. -/
theorem resample_loop_spec (index : Nat → Nat) (ps : List (Particle α)) :
    ∀ n : Nat,
      (∃ r : List (Particle α),
        (List.range n).foldlM (resample_step index ps) [] = some r ∧ r.length = n ∧
        ∀ c : Nat, c < n → ∃ p : Particle α, ps[index c]? = some p ∧ r[c]? = some p) ∨
      ((List.range n).foldlM (resample_step index ps) [] = none ∧
        ∃ c : Nat, c < n ∧ ps[index c]? = none) := by
  intro n
  induction n with
  | zero => left; exact ⟨[], rfl, rfl, fun c hc => absurd hc (Nat.not_lt_zero c)⟩
  | succ n ih =>
    rw [List.range_succ, List.foldlM_append]
    rcases ih with ⟨r, hr, hlen, hget⟩ | ⟨hr, c, hc, hnone⟩
    · cases hp : ps[index n]? with
      | none =>
        right
        refine ⟨?_, n, Nat.lt_succ_self n, hp⟩
        rw [hr]
        simp [resample_step, hp]
      | some p =>
        left
        refine ⟨r ++ [p], ?_, by simp [hlen], ?_⟩
        · rw [hr]
          simp [resample_step, hp]
        · intro c hc
          by_cases hcn : c = n
          · rw [hcn]
            refine ⟨p, hp, ?_⟩
            rw [List.getElem?_append_right (by omega)]
            simp [hlen]
          · obtain ⟨q, hq, hrq⟩ := hget c (by omega)
            refine ⟨q, hq, ?_⟩
            rw [List.getElem?_append_left (by omega)]
            exact hrq
    · right
      refine ⟨?_, c, Nat.lt_succ_of_lt hc, hnone⟩
      rw [hr]
      rfl

/-- The function `resample` either replaces the particle list by the list of
the particles at the drawn indices, of the same length, and changes nothing
else, or has no result because a drawn index is out of range. -/
theorem resample_spec (index : Nat → Nat) (f : ParticleFilter α) :
    (∃ r : List (Particle α),
      resample index f = some { f with particles := r } ∧
      r.length = f.particles.length ∧
      ∀ c : Nat, c < f.particles.length →
        ∃ p : Particle α, f.particles[index c]? = some p ∧ r[c]? = some p) ∨
    (resample index f = none ∧
      ∃ c : Nat, c < f.particles.length ∧ f.particles[index c]? = none) := by
  rcases resample_loop_spec index f.particles f.particles.length with
    ⟨r, hr, hlen, hget⟩ | ⟨hr, c, hc, hnone⟩
  · left
    exact ⟨r, by simp [resample, hr], hlen, hget⟩
  · right
    exact ⟨by simp [resample, hr], c, hc, hnone⟩

theorem resample_has_N (index : Nat → Nat) (f f' : ParticleFilter α)
    (hf : has_N_particles f) (hrun : resample index f = some f') :
    has_N_particles f' := by
  obtain ⟨hn, hp, hw⟩ := hf
  rcases resample_spec index f with ⟨r, hr, hlen, _⟩ | ⟨hnone, _⟩
  · have hff := Option.some.inj (hr.symm.trans hrun)
    rw [← hff]
    exact ⟨hn, hlen.trans hp, hw⟩
  · rw [hnone] at hrun
    exact absurd hrun (by simp)

theorem resample_defined (index : Nat → Nat) (f : ParticleFilter α)
    (hf : has_N_particles f)
    (hdef : ∀ c : Nat, c < f.particles.length → index c < f.weights.length) :
    ∃ f' : ParticleFilter α, resample index f = some f' := by
  obtain ⟨_, hp, hw⟩ := hf
  rcases resample_spec index f with ⟨r, hr, _⟩ | ⟨_, c, hc, hnone⟩
  · exact ⟨_, hr⟩
  · have h1 := hdef c hc
    have h2 : f.particles[index c]? ≠ none := by
      rw [List.getElem?_eq_getElem (by omega)]
      simp
    exact absurd hnone h2

end Resampling

section Lifecycle

variable {α : Type} [LinearOrderedField α]

/-- The loop of `init` run for the counters below `n` appends `n` particles,
the `i`-th with id `i`, the three draws and weight 1, and `n` weights 1. -/
theorem init_loop_spec (draw : NormalDraw α) (x y theta : α) (std : Nat → α)
    (f : ParticleFilter α) (n : Nat) :
    (List.range n).foldl (init_step draw x y theta std) f =
      { f with
        particles := f.particles ++ (List.range n).map fun (i : Nat) =>
          (⟨Int.ofNat i, draw i 0 x (std 0), draw i 1 y (std 1), draw i 2 theta (std 2), 1⟩ :
            Particle α),
        weights := f.weights ++ List.replicate n 1 } := by
  induction n with
  | zero => simp
  | succ n ih =>
    rw [List.range_succ, List.foldl_append, ih]
    simp [init_step, List.replicate_succ']

theorem init_fresh (draw : NormalDraw α) (x y theta : α) (std : Nat → α) :
    init draw x y theta std (fresh α) =
      { num_particles := 200, is_initialized := true,
        particles := (List.range 200).map fun (i : Nat) =>
          (⟨Int.ofNat i, draw i 0 x (std 0), draw i 1 y (std 1), draw i 2 theta (std 2), 1⟩ :
            Particle α),
        weights := List.replicate 200 1 } := by
  simp only [init, init_loop_spec, fresh, List.nil_append]

theorem init_fresh_has_N (draw : NormalDraw α) (x y theta : α) (std : Nat → α) :
    has_N_particles (init draw x y theta std (fresh α)) := by
  rw [init_fresh]
  simp only [has_N_particles, List.length_map, List.length_range, List.length_replicate,
    and_self]

theorem particle_weight_no_observations (M : Libm α) (sensor_range : α)
    (std_landmark : Nat → α) (map_landmarks : Map α) (p : Particle α) :
    particle_weight M sensor_range std_landmark map_landmarks [] p = some 1 := by
  simp [particle_weight, dataAssociation, weight_loop]

theorem particle_weight_of_candidates (M : Libm α) (sensor_range : α)
    (std_landmark : Nat → α) (map_landmarks : Map α)
    (observations : List (LandmarkObs α)) (p : Particle α)
    (hne : candidates M sensor_range map_landmarks p ≠ []) :
    ∃ w : α,
      particle_weight M sensor_range std_landmark map_landmarks observations p = some w := by
  obtain ⟨matched, _, hw⟩ := weight_loop_matched M std_landmark
    (candidates M sensor_range map_landmarks p)
    (fun o => { o with id := (dataAssociation_inner M o.x o.y
      (candidates M sensor_range map_landmarks p) 0 0 false o.id).2.2 })
    (fun _ => rfl) (fun _ => rfl)
    (fun o => by
      obtain ⟨k, c, hid, hk, _, _⟩ := dataAssociation_inner_nearest M o.x o.y _ hne o.id
      exact ⟨k, c, hid, hk⟩)
    observations 1
  exact ⟨_, hw⟩

theorem prediction_has_N (M : Libm α) (draw : NormalDraw α) (delta_t : α)
    (std_pos : Nat → α) (velocity yaw_rate : α) (f : ParticleFilter α)
    (hf : has_N_particles f) :
    ∃ f' : ParticleFilter α,
      prediction M draw delta_t std_pos velocity yaw_rate f = some f' ∧
      has_N_particles f' ∧ f'.weights = f.weights ∧
      f'.particles.map (fun p => p.weight) = f.particles.map (fun p => p.weight) := by
  obtain ⟨hn, hp, hw⟩ := hf
  obtain ⟨r, hr, hlen, hget⟩ := prediction_eq M draw delta_t std_pos velocity yaw_rate f
    (hn.trans hp.symm)
  refine ⟨_, hr, ⟨hn, hlen.trans hp, hw⟩, rfl, ?_⟩
  apply List.ext_getElem?
  intro i
  simp only [List.getElem?_map, hget i, Option.map_map]
  congr 1
  funext p
  simp only [Function.comp, prediction_noise, prediction_move]
  split <;> rfl

theorem updateWeights_has_N (M : Libm α) (sensor_range : α) (std_landmark : Nat → α)
    (observations : List (LandmarkObs α)) (map_landmarks : Map α)
    (f f' : ParticleFilter α) (hf : has_N_particles f)
    (hrun : updateWeights M sensor_range std_landmark observations map_landmarks f = some f') :
    has_N_particles f' ∧ weights_consistent f' := by
  obtain ⟨hn, hp, hw⟩ := hf
  rcases updateWeights_spec M sensor_range std_landmark observations map_landmarks f
    (hn.trans hp.symm) (hw.trans hp.symm) with
    ⟨f1, hf1, hn1, _, hp1, hw1, hall⟩ | ⟨hnone, _⟩
  · have hff : f1 = f' := Option.some.inj (hf1.symm.trans hrun)
    subst hff
    refine ⟨⟨hn1.trans hn, hp1.trans hp, hw1.trans hw⟩, ?_⟩
    unfold weights_consistent
    apply List.ext_getElem?
    intro i
    by_cases hi : i < f.particles.length
    · obtain ⟨p, w, _, _, hpi, hwi⟩ := hall i hi
      simp [hpi, hwi]
    · have h1 : f1.weights[i]? = none := List.getElem?_eq_none (by omega)
      have h2 : f1.particles[i]? = none := List.getElem?_eq_none (by omega)
      simp [h1, h2]
  · rw [hnone] at hrun
    exact absurd hrun (by simp)

theorem updateWeights_defined (M : Libm α) (sensor_range : α) (std_landmark : Nat → α)
    (observations : List (LandmarkObs α)) (map_landmarks : Map α)
    (f : ParticleFilter α) (hf : has_N_particles f)
    (hdef : observations = [] ∨
      ∀ p ∈ f.particles, candidates M sensor_range map_landmarks p ≠ []) :
    ∃ f' : ParticleFilter α,
      updateWeights M sensor_range std_landmark observations map_landmarks f = some f' := by
  obtain ⟨hn, hp, hw⟩ := hf
  rcases updateWeights_spec M sensor_range std_landmark observations map_landmarks f
    (hn.trans hp.symm) (hw.trans hp.symm) with
    ⟨f1, hf1, _⟩ | ⟨_, i, p, hpi, hnone⟩
  · exact ⟨f1, hf1⟩
  · rcases hdef with h | h
    · rw [h, particle_weight_no_observations] at hnone
      exact absurd hnone (by simp)
    · obtain ⟨w, hw'⟩ := particle_weight_of_candidates M sensor_range std_landmark
        map_landmarks observations p (h p (List.getElem?_mem hpi))
      rw [hw'] at hnone
      exact absurd hnone (by simp)

theorem run_has_N (M : Libm α) (c : Call α) (f f' : ParticleFilter α)
    (hf : has_N_particles f) (hrun : c.run M f = some f') : has_N_particles f' := by
  cases c with
  | prediction draw delta_t std_pos velocity yaw_rate =>
    obtain ⟨f1, hf1, hN, _⟩ := prediction_has_N M draw delta_t std_pos velocity yaw_rate f hf
    have hff : f1 = f' := Option.some.inj (hf1.symm.trans hrun)
    exact hff ▸ hN
  | updateWeights sensor_range std_landmark observations map_landmarks =>
    exact (updateWeights_has_N M sensor_range std_landmark observations map_landmarks
      f f' hf hrun).1
  | resample index => exact resample_has_N index f f' hf hrun

theorem run_defined (M : Libm α) (c : Call α) (f : ParticleFilter α)
    (hf : has_N_particles f) (hdef : c.defined M f) :
    ∃ f' : ParticleFilter α, c.run M f = some f' := by
  cases c with
  | prediction draw delta_t std_pos velocity yaw_rate =>
    obtain ⟨f1, hf1, _⟩ := prediction_has_N M draw delta_t std_pos velocity yaw_rate f hf
    exact ⟨f1, hf1⟩
  | updateWeights sensor_range std_landmark observations map_landmarks =>
    exact updateWeights_defined M sensor_range std_landmark observations map_landmarks
      f hf hdef
  | resample index => exact resample_defined index f hf hdef

theorem run_calls_has_N (M : Libm α) (calls : List (Call α)) :
    ∀ f f' : ParticleFilter α, has_N_particles f → run_calls M calls f = some f' →
      has_N_particles f' := by
  induction calls with
  | nil =>
    intro f f' hf hrun
    have hff : f = f' := by simpa [run_calls] using hrun
    exact hff ▸ hf
  | cons c cs ih =>
    intro f f' hf hrun
    simp only [run_calls, List.foldlM_cons] at hrun
    cases h1 : c.run M f with
    | none =>
      rw [h1] at hrun
      exact absurd hrun (by simp)
    | some f1 =>
      rw [h1] at hrun
      exact ih f1 f' (run_has_N M c f f1 hf h1) hrun

theorem run_calls_defined (M : Libm α) (calls : List (Call α)) :
    ∀ f : ParticleFilter α, has_N_particles f → calls_defined M calls f →
      ∃ f' : ParticleFilter α, run_calls M calls f = some f' := by
  induction calls with
  | nil => intro f _ _; exact ⟨f, rfl⟩
  | cons c cs ih =>
    intro f hf hdef
    obtain ⟨hd, hrest⟩ := hdef
    obtain ⟨f1, h1⟩ := run_defined M c f hf hd
    obtain ⟨f', hf'⟩ := ih f1 (run_has_N M c f f1 hf h1) (hrest f1 h1)
    refine ⟨f', ?_⟩
    simp only [run_calls, List.foldlM_cons, h1]
    exact hf'

end Lifecycle

/-! ## Claims on `dataAssociation` -/

/-- C1: for a non-empty candidate list `predicted`, `dataAssociation` keeps the
length of the observation list and gives every observation an id that is a
position `l` of the candidate list, `0 ≤ l < predicted.size()`, whose candidate
is at minimal Euclidean distance from the observation among all candidates. -/
theorem dataAssociation_assigns_nearest_index
    (predicted observations : List (LandmarkObs ℝ)) (hne : predicted ≠ []) :
    (dataAssociation (Libm.mk Real.sqrt Real.sin Real.cos Real.exp Real.pi)
        predicted observations).length = observations.length ∧
    ∀ (n : Nat) (o : LandmarkObs ℝ), observations[n]? = some o →
      ∃ (o' : LandmarkObs ℝ) (l : Nat) (c : LandmarkObs ℝ),
        (dataAssociation (Libm.mk Real.sqrt Real.sin Real.cos Real.exp Real.pi)
          predicted observations)[n]? = some o' ∧
        o'.id = (l : Int) ∧ l < predicted.length ∧ predicted[l]? = some c ∧
        ∀ c' ∈ predicted,
          Real.sqrt ((o.x - c.x) ^ 2 + (o.y - c.y) ^ 2) ≤
            Real.sqrt ((o.x - c'.x) ^ 2 + (o.y - c'.y) ^ 2) := by
  refine ⟨dataAssociation_length _ _ _, ?_⟩
  intro n o hn
  obtain ⟨k, c, hid, hk, hmin, _⟩ := dataAssociation_inner_nearest
    (Libm.mk Real.sqrt Real.sin Real.cos Real.exp Real.pi) o.x o.y predicted hne o.id
  refine ⟨{ o with id := (k : Int) }, k, c, ?_, rfl,
    (List.getElem?_eq_some_iff.1 hk).1, hk, hmin⟩
  rw [dataAssociation_getElem?, hn, Option.map_some', hid]

/-- C1, on the example of the specification: the candidates `(0,0)` and
`(10,10)` (landmark ids 7 and 8) give the observation `(1,1)` the id 0 and the
observation `(9,9)` the id 1. -/
theorem dataAssociation_assigns_nearest_index_witness :
    ([⟨7, 0, 0⟩, ⟨8, 10, 10⟩] : List (LandmarkObs ℝ)) ≠ [] ∧
    dataAssociation (Libm.mk Real.sqrt Real.sin Real.cos Real.exp Real.pi)
      [⟨7, 0, 0⟩, ⟨8, 10, 10⟩] [⟨-1, 1, 1⟩, ⟨-1, 9, 9⟩] = [⟨0, 1, 1⟩, ⟨1, 9, 9⟩] ∧
    ∀ (n : Nat) (o : LandmarkObs ℝ),
      ([⟨-1, 1, 1⟩, ⟨-1, 9, 9⟩] : List (LandmarkObs ℝ))[n]? = some o →
      ∃ (o' : LandmarkObs ℝ) (l : Nat) (c : LandmarkObs ℝ),
        (dataAssociation (Libm.mk Real.sqrt Real.sin Real.cos Real.exp Real.pi)
          [⟨7, 0, 0⟩, ⟨8, 10, 10⟩] [⟨-1, 1, 1⟩, ⟨-1, 9, 9⟩])[n]? = some o' ∧
        o'.id = (l : Int) ∧ l < ([⟨7, 0, 0⟩, ⟨8, 10, 10⟩] : List (LandmarkObs ℝ)).length ∧
        ([⟨7, 0, 0⟩, ⟨8, 10, 10⟩] : List (LandmarkObs ℝ))[l]? = some c ∧
        ∀ c' ∈ ([⟨7, 0, 0⟩, ⟨8, 10, 10⟩] : List (LandmarkObs ℝ)),
          Real.sqrt ((o.x - c.x) ^ 2 + (o.y - c.y) ^ 2) ≤
            Real.sqrt ((o.x - c'.x) ^ 2 + (o.y - c'.y) ^ 2) := by
  refine ⟨by simp, ?_, (dataAssociation_assigns_nearest_index
    [⟨7, 0, 0⟩, ⟨8, 10, 10⟩] [⟨-1, 1, 1⟩, ⟨-1, 9, 9⟩] (by simp)).2⟩
  have h1 : ¬ (Real.sqrt ((1 - 10) ^ 2 + (1 - 10) ^ 2) < Real.sqrt (1 + 1)) :=
    not_lt.2 (Real.sqrt_le_sqrt (by norm_num))
  have h2 : Real.sqrt ((9 - 10) ^ 2 + (9 - 10) ^ 2) < Real.sqrt (9 ^ 2 + 9 ^ 2) :=
    Real.sqrt_lt_sqrt (by norm_num) (by norm_num)
  simp [dataAssociation, dataAssociation_inner, h1, h2]

/-- C2: ties go to the first candidate.  For a non-empty candidate list the id
given to an observation is the smallest position at minimal distance: the
candidate at that position is at minimal distance, and every candidate at a
smaller position is strictly farther from the observation. -/
theorem dataAssociation_first_wins_ties
    (predicted observations : List (LandmarkObs ℝ)) (hne : predicted ≠ []) :
    ∀ (n : Nat) (o : LandmarkObs ℝ), observations[n]? = some o →
      ∃ (o' : LandmarkObs ℝ) (l : Nat) (c : LandmarkObs ℝ),
        (dataAssociation (Libm.mk Real.sqrt Real.sin Real.cos Real.exp Real.pi)
          predicted observations)[n]? = some o' ∧
        o'.id = (l : Int) ∧ predicted[l]? = some c ∧
        (∀ c' ∈ predicted,
          Real.sqrt ((o.x - c.x) ^ 2 + (o.y - c.y) ^ 2) ≤
            Real.sqrt ((o.x - c'.x) ^ 2 + (o.y - c'.y) ^ 2)) ∧
        ∀ (j : Nat) (c' : LandmarkObs ℝ), j < l → predicted[j]? = some c' →
          Real.sqrt ((o.x - c.x) ^ 2 + (o.y - c.y) ^ 2) <
            Real.sqrt ((o.x - c'.x) ^ 2 + (o.y - c'.y) ^ 2) := by
  intro n o hn
  obtain ⟨k, c, hid, hk, hmin, hfirst⟩ := dataAssociation_inner_nearest
    (Libm.mk Real.sqrt Real.sin Real.cos Real.exp Real.pi) o.x o.y predicted hne o.id
  refine ⟨{ o with id := (k : Int) }, k, c, ?_, rfl, hk, hmin, hfirst⟩
  rw [dataAssociation_getElem?, hn, Option.map_some', hid]

/-- C2, on an example: the observation `(1,0)` is at distance 1 from both the
candidate at position 1 and the candidate at position 2, and farther from the
one at position 0; it gets the id 1. -/
theorem dataAssociation_first_wins_ties_witness :
    ([⟨7, 5, 5⟩, ⟨8, 0, 0⟩, ⟨9, 2, 0⟩] : List (LandmarkObs ℝ)) ≠ [] ∧
    dataAssociation (Libm.mk Real.sqrt Real.sin Real.cos Real.exp Real.pi)
      [⟨7, 5, 5⟩, ⟨8, 0, 0⟩, ⟨9, 2, 0⟩] [⟨-1, 1, 0⟩] = [⟨1, 1, 0⟩] ∧
    ∀ (n : Nat) (o : LandmarkObs ℝ),
      ([⟨-1, 1, 0⟩] : List (LandmarkObs ℝ))[n]? = some o →
      ∃ (o' : LandmarkObs ℝ) (l : Nat) (c : LandmarkObs ℝ),
        (dataAssociation (Libm.mk Real.sqrt Real.sin Real.cos Real.exp Real.pi)
          [⟨7, 5, 5⟩, ⟨8, 0, 0⟩, ⟨9, 2, 0⟩] [⟨-1, 1, 0⟩])[n]? = some o' ∧
        o'.id = (l : Int) ∧
        ([⟨7, 5, 5⟩, ⟨8, 0, 0⟩, ⟨9, 2, 0⟩] : List (LandmarkObs ℝ))[l]? = some c ∧
        (∀ c' ∈ ([⟨7, 5, 5⟩, ⟨8, 0, 0⟩, ⟨9, 2, 0⟩] : List (LandmarkObs ℝ)),
          Real.sqrt ((o.x - c.x) ^ 2 + (o.y - c.y) ^ 2) ≤
            Real.sqrt ((o.x - c'.x) ^ 2 + (o.y - c'.y) ^ 2)) ∧
        ∀ (j : Nat) (c' : LandmarkObs ℝ), j < l →
          ([⟨7, 5, 5⟩, ⟨8, 0, 0⟩, ⟨9, 2, 0⟩] : List (LandmarkObs ℝ))[j]? = some c' →
          Real.sqrt ((o.x - c.x) ^ 2 + (o.y - c.y) ^ 2) <
            Real.sqrt ((o.x - c'.x) ^ 2 + (o.y - c'.y) ^ 2) := by
  refine ⟨by simp, ?_, dataAssociation_first_wins_ties
    [⟨7, 5, 5⟩, ⟨8, 0, 0⟩, ⟨9, 2, 0⟩] [⟨-1, 1, 0⟩] (by simp)⟩
  have h1 : (1 : ℝ) < Real.sqrt ((1 - 5) ^ 2 + 5 ^ 2) := by
    have h : Real.sqrt 1 < Real.sqrt ((1 - 5) ^ 2 + 5 ^ 2) :=
      Real.sqrt_lt_sqrt (by norm_num) (by norm_num)
    rwa [Real.sqrt_one] at h
  have h2 : ((1 : ℝ) - 2) ^ 2 = 1 := by norm_num
  simp [dataAssociation, dataAssociation_inner, h1, h2]

/-! ## Claims on `prediction` -/

/-- C5: with `yaw_rate` exactly 0 and noise draws that return their mean,
`prediction` succeeds and maps every particle `(x, y, theta)` to
`(x + velocity*delta_t*cos(theta), y + velocity*delta_t*sin(theta), theta)`,
id and weight unchanged, for every velocity and delta_t. -/
theorem prediction_straight_line (draw : NormalDraw ℝ) (delta_t : ℝ)
    (std_pos : Nat → ℝ) (velocity : ℝ) (f : ParticleFilter ℝ)
    (hN : f.num_particles = f.particles.length)
    (hzero : ∀ (i k : Nat) (mean : ℝ), draw i k mean (std_pos k) = mean) :
    prediction (Libm.mk Real.sqrt Real.sin Real.cos Real.exp Real.pi)
        draw delta_t std_pos velocity 0 f =
      some { f with particles := f.particles.map fun p =>
        { id := p.id,
          x := p.x + velocity * delta_t * Real.cos p.theta,
          y := p.y + velocity * delta_t * Real.sin p.theta,
          theta := p.theta,
          weight := p.weight } } := by
  rw [prediction_zero_noise _ draw delta_t std_pos velocity 0 f hN hzero]
  simp [prediction_move]

/-- C5, on the example of the specification: velocity 2, delta_t 1, yaw rate 0
and no noise move the particle `(0, 0, 0)` to exactly `(2, 0, 0)`. -/
theorem prediction_straight_line_witness :
    (1 = ([⟨0, 0, 0, 0, 1⟩] : List (Particle ℝ)).length) ∧
    (∀ (i k : Nat) (mean : ℝ),
      (fun (_ _ : Nat) (m _ : ℝ) => m) i k mean ((fun _ => (0 : ℝ)) k) = mean) ∧
    prediction (Libm.mk Real.sqrt Real.sin Real.cos Real.exp Real.pi)
        (fun _ _ m _ => m) 1 (fun _ => 0) 2 0
        { num_particles := 1, is_initialized := true,
          particles := [⟨0, 0, 0, 0, 1⟩], weights := [1] } =
      some { num_particles := 1, is_initialized := true,
             particles := [⟨0, 2, 0, 0, 1⟩], weights := [1] } :=
  ⟨rfl, fun _ _ _ => rfl,
    (prediction_straight_line (fun _ _ m _ => m) 1 (fun _ => 0) 2
      { num_particles := 1, is_initialized := true,
        particles := [⟨0, 0, 0, 0, 1⟩], weights := [1] } rfl (fun _ _ _ => rfl)).trans
      (by simp)⟩

/-- C6: with any `yaw_rate` other than 0 and noise draws that return their
mean, `prediction` succeeds and maps every particle `(x, y, theta)` to
`(x + (v/w)*(sin(theta + w*dt) - sin(theta)),
  y + (v/w)*(cos(theta) - cos(theta + w*dt)), theta + w*dt)`,
the new `x` and `y` being computed from the heading before the step. -/
theorem prediction_curved (draw : NormalDraw ℝ) (delta_t : ℝ)
    (std_pos : Nat → ℝ) (velocity yaw_rate : ℝ) (f : ParticleFilter ℝ)
    (hw : yaw_rate ≠ 0)
    (hN : f.num_particles = f.particles.length)
    (hzero : ∀ (i k : Nat) (mean : ℝ), draw i k mean (std_pos k) = mean) :
    prediction (Libm.mk Real.sqrt Real.sin Real.cos Real.exp Real.pi)
        draw delta_t std_pos velocity yaw_rate f =
      some { f with particles := f.particles.map fun p =>
        { id := p.id,
          x := p.x + (velocity / yaw_rate) *
            (Real.sin (p.theta + yaw_rate * delta_t) - Real.sin p.theta),
          y := p.y + (velocity / yaw_rate) *
            (Real.cos p.theta - Real.cos (p.theta + yaw_rate * delta_t)),
          theta := p.theta + yaw_rate * delta_t,
          weight := p.weight } } := by
  rw [prediction_zero_noise _ draw delta_t std_pos velocity yaw_rate f hN hzero]
  simp [prediction_move, hw]

/-- C6, on the example of the specification: yaw rate `π/2`, velocity `π`,
delta_t 1 and no noise move the particle `(0, 0, 0)` to `(2, 2, π/2)`. -/
theorem prediction_curved_witness :
    (Real.pi / 2 ≠ 0) ∧
    (1 = ([⟨0, 0, 0, 0, 1⟩] : List (Particle ℝ)).length) ∧
    (∀ (i k : Nat) (mean : ℝ),
      (fun (_ _ : Nat) (m _ : ℝ) => m) i k mean ((fun _ => (0 : ℝ)) k) = mean) ∧
    prediction (Libm.mk Real.sqrt Real.sin Real.cos Real.exp Real.pi)
        (fun _ _ m _ => m) 1 (fun _ => 0) Real.pi (Real.pi / 2)
        { num_particles := 1, is_initialized := true,
          particles := [⟨0, 0, 0, 0, 1⟩], weights := [1] } =
      some { num_particles := 1, is_initialized := true,
             particles := [⟨0, 2, 2, Real.pi / 2, 1⟩], weights := [1] } := by
  have hpi : Real.pi / 2 ≠ 0 := div_ne_zero Real.pi_ne_zero two_ne_zero
  have hq : Real.pi / (Real.pi / 2) = 2 := by
    field_simp
  refine ⟨hpi, rfl, fun _ _ _ => rfl,
    (prediction_curved (fun _ _ m _ => m) 1 (fun _ => 0) Real.pi (Real.pi / 2)
      { num_particles := 1, is_initialized := true,
        particles := [⟨0, 0, 0, 0, 1⟩], weights := [1] } hpi rfl (fun _ _ _ => rfl)).trans ?_⟩
  simp [hq]

/-! ## Claims on `updateWeights` -/

/-- C3: on a filter whose `num_particles` and weight vector match its particle
list, `updateWeights` has a result when every particle has a landmark in range,
and whenever it has a result it gives every particle with a landmark in range
the weight 1 multiplied, over the observations in order, by
`exp(-0.5*(dx^2*sx + dy^2*sy)) / sqrt(2*pi*sx*sy)`, where `(dx, dy)` is the
observation minus the candidate at the position `dataAssociation` stored in
its id, and `sx`, `sy` are `std_landmark[0]`, `std_landmark[1]` as they come.
The weight is stored in the particle and in the weight vector. -/
theorem updateWeights_weight_formula (sensor_range : ℝ) (std_landmark : Nat → ℝ)
    (observations : List (LandmarkObs ℝ)) (map_landmarks : Map ℝ) (f : ParticleFilter ℝ)
    (hN : f.num_particles = f.particles.length)
    (hW : f.weights.length = f.particles.length) :
    ((∀ p ∈ f.particles,
        predicted_landmarks (Libm.mk Real.sqrt Real.sin Real.cos Real.exp Real.pi)
          sensor_range map_landmarks p.x p.y p.theta ≠ []) →
      ∃ f' : ParticleFilter ℝ,
        updateWeights (Libm.mk Real.sqrt Real.sin Real.cos Real.exp Real.pi)
          sensor_range std_landmark observations map_landmarks f = some f') ∧
    ∀ f' : ParticleFilter ℝ,
      updateWeights (Libm.mk Real.sqrt Real.sin Real.cos Real.exp Real.pi)
        sensor_range std_landmark observations map_landmarks f = some f' →
      ∀ (i : Nat) (p : Particle ℝ), f.particles[i]? = some p →
        predicted_landmarks (Libm.mk Real.sqrt Real.sin Real.cos Real.exp Real.pi)
          sensor_range map_landmarks p.x p.y p.theta ≠ [] →
        ∃ matched : List (LandmarkObs ℝ),
          List.Forall₂
            (fun o' c => ∃ l : Nat, o'.id = (l : Int) ∧
              (predicted_landmarks (Libm.mk Real.sqrt Real.sin Real.cos Real.exp Real.pi)
                sensor_range map_landmarks p.x p.y p.theta)[l]? = some c)
            (dataAssociation (Libm.mk Real.sqrt Real.sin Real.cos Real.exp Real.pi)
              (predicted_landmarks (Libm.mk Real.sqrt Real.sin Real.cos Real.exp Real.pi)
                sensor_range map_landmarks p.x p.y p.theta) observations)
            matched ∧
          f'.particles[i]? = some { p with weight :=
            (List.zip observations matched).foldl (fun w oc =>
              w * (Real.exp (-0.5 * ((oc.1.x - oc.2.x) ^ 2 * std_landmark 0 +
                  (oc.1.y - oc.2.y) ^ 2 * std_landmark 1)) /
                Real.sqrt (2 * Real.pi * std_landmark 0 * std_landmark 1))) 1 } ∧
          f'.weights[i]? = some
            ((List.zip observations matched).foldl (fun w oc =>
              w * (Real.exp (-0.5 * ((oc.1.x - oc.2.x) ^ 2 * std_landmark 0 +
                  (oc.1.y - oc.2.y) ^ 2 * std_landmark 1)) /
                Real.sqrt (2 * Real.pi * std_landmark 0 * std_landmark 1))) 1) := by
  have hform : ∀ p : Particle ℝ,
      predicted_landmarks (Libm.mk Real.sqrt Real.sin Real.cos Real.exp Real.pi)
          sensor_range map_landmarks p.x p.y p.theta ≠ [] →
      ∃ matched : List (LandmarkObs ℝ),
        List.Forall₂
          (fun o' c => ∃ l : Nat, o'.id = (l : Int) ∧
            (predicted_landmarks (Libm.mk Real.sqrt Real.sin Real.cos Real.exp Real.pi)
              sensor_range map_landmarks p.x p.y p.theta)[l]? = some c)
          (dataAssociation (Libm.mk Real.sqrt Real.sin Real.cos Real.exp Real.pi)
            (predicted_landmarks (Libm.mk Real.sqrt Real.sin Real.cos Real.exp Real.pi)
              sensor_range map_landmarks p.x p.y p.theta) observations)
          matched ∧
        particle_weight (Libm.mk Real.sqrt Real.sin Real.cos Real.exp Real.pi)
            sensor_range std_landmark map_landmarks observations p =
          some ((List.zip observations matched).foldl (fun w oc =>
            w * (Real.exp (-0.5 * ((oc.1.x - oc.2.x) ^ 2 * std_landmark 0 +
                (oc.1.y - oc.2.y) ^ 2 * std_landmark 1)) /
              Real.sqrt (2 * Real.pi * std_landmark 0 * std_landmark 1))) 1) := by
    intro p hne
    obtain ⟨matched, hm, hw⟩ := weight_loop_matched
      (Libm.mk Real.sqrt Real.sin Real.cos Real.exp Real.pi) std_landmark
      (predicted_landmarks (Libm.mk Real.sqrt Real.sin Real.cos Real.exp Real.pi)
        sensor_range map_landmarks p.x p.y p.theta)
      (fun o => { o with id := (dataAssociation_inner
        (Libm.mk Real.sqrt Real.sin Real.cos Real.exp Real.pi) o.x o.y
        (predicted_landmarks (Libm.mk Real.sqrt Real.sin Real.cos Real.exp Real.pi)
          sensor_range map_landmarks p.x p.y p.theta) 0 0 false o.id).2.2 })
      (fun _ => rfl) (fun _ => rfl)
      (fun o => by
        obtain ⟨k, c, hid, hk, _, _⟩ := dataAssociation_inner_nearest
          (Libm.mk Real.sqrt Real.sin Real.cos Real.exp Real.pi) o.x o.y _ hne o.id
        exact ⟨k, c, hid, hk⟩)
      observations 1
    refine ⟨matched, hm, ?_⟩
    have hfun : (fun (w : ℝ) (oc : LandmarkObs ℝ × LandmarkObs ℝ) =>
          w * (Real.exp (-0.5 * ((oc.1.x - oc.2.x) ^ 2 * std_landmark 0 +
              (oc.1.y - oc.2.y) ^ 2 * std_landmark 1)) /
            Real.sqrt (2 * Real.pi * std_landmark 0 * std_landmark 1))) =
        (fun (w : ℝ) (oc : LandmarkObs ℝ × LandmarkObs ℝ) =>
          w * Real.exp (-0.5 * ((oc.1.x - oc.2.x) ^ 2 * std_landmark 0 +
              (oc.1.y - oc.2.y) ^ 2 * std_landmark 1)) /
            Real.sqrt (2 * Real.pi * std_landmark 0 * std_landmark 1)) := by
      funext w oc
      rw [mul_div_assoc]
    rw [hfun]
    exact hw
  rcases updateWeights_spec (Libm.mk Real.sqrt Real.sin Real.cos Real.exp Real.pi)
    sensor_range std_landmark observations map_landmarks f hN hW with
    ⟨f1, hf1, _, _, _, _, hall⟩ | ⟨hnone, i, p, hp, hw⟩
  · refine ⟨fun _ => ⟨f1, hf1⟩, ?_⟩
    intro f' hf' i p hp hne
    have hff : f1 = f' := Option.some.inj (hf1.symm.trans hf')
    subst hff
    obtain ⟨p', w, hp', hw, hpart, hwt⟩ := hall i (List.getElem?_eq_some_iff.1 hp).1
    have hpp : p' = p := Option.some.inj (hp'.symm.trans hp)
    subst hpp
    obtain ⟨matched, hm, hpw⟩ := hform p' hne
    have hweq := Option.some.inj (hw.symm.trans hpw)
    exact ⟨matched, hm, by rw [hpart, hweq], by rw [hwt, hweq]⟩
  · refine ⟨?_, ?_⟩
    · intro hne
      obtain ⟨matched, _, hpw⟩ := hform p (hne p (List.getElem?_mem hp))
      rw [hw] at hpw
      exact absurd hpw (by simp)
    · intro f' hf'
      rw [hnone] at hf'
      exact absurd hf' (by simp)

/-- C3, on an example: one particle at the origin, one landmark at `(1, 0)`
within range and one observation `(1, 0)`.  The call has a result, which is
the weight `1 / sqrt(2*pi)` in both places, and that result obeys the formula. -/
theorem updateWeights_weight_formula_witness :
    (1 = ([⟨0, 0, 0, 0, 1⟩] : List (Particle ℝ)).length) ∧
    (([1] : List ℝ).length = ([⟨0, 0, 0, 0, 1⟩] : List (Particle ℝ)).length) ∧
    updateWeights (Libm.mk Real.sqrt Real.sin Real.cos Real.exp Real.pi) 50 (fun _ => 1)
        [⟨-1, 1, 0⟩] ⟨[⟨3, 1, 0⟩]⟩
        { num_particles := 1, is_initialized := true,
          particles := [⟨0, 0, 0, 0, 1⟩], weights := [1] } =
      some { num_particles := 1, is_initialized := true,
             particles := [⟨0, 0, 0, 0, 1 / Real.sqrt (2 * Real.pi)⟩],
             weights := [1 / Real.sqrt (2 * Real.pi)] } ∧
    ∃ matched : List (LandmarkObs ℝ),
      List.Forall₂
        (fun o' c => ∃ l : Nat, o'.id = (l : Int) ∧
          (predicted_landmarks (Libm.mk Real.sqrt Real.sin Real.cos Real.exp Real.pi)
            50 ⟨[⟨3, 1, 0⟩]⟩ 0 0 0)[l]? = some c)
        (dataAssociation (Libm.mk Real.sqrt Real.sin Real.cos Real.exp Real.pi)
          (predicted_landmarks (Libm.mk Real.sqrt Real.sin Real.cos Real.exp Real.pi)
            50 ⟨[⟨3, 1, 0⟩]⟩ 0 0 0) [⟨-1, 1, 0⟩])
        matched ∧
      ([⟨0, 0, 0, 0, 1 / Real.sqrt (2 * Real.pi)⟩] : List (Particle ℝ))[0]? =
        some { id := 0, x := 0, y := 0, theta := 0, weight :=
          (List.zip [(⟨-1, 1, 0⟩ : LandmarkObs ℝ)] matched).foldl (fun w oc =>
            w * (Real.exp (-0.5 * ((oc.1.x - oc.2.x) ^ 2 * 1 + (oc.1.y - oc.2.y) ^ 2 * 1)) /
              Real.sqrt (2 * Real.pi * 1 * 1))) 1 } ∧
      ([1 / Real.sqrt (2 * Real.pi)] : List ℝ)[0]? = some
        ((List.zip [(⟨-1, 1, 0⟩ : LandmarkObs ℝ)] matched).foldl (fun w oc =>
          w * (Real.exp (-0.5 * ((oc.1.x - oc.2.x) ^ 2 * 1 + (oc.1.y - oc.2.y) ^ 2 * 1)) /
            Real.sqrt (2 * Real.pi * 1 * 1))) 1) := by
  have h50 : (1 : ℝ) ≤ 50 := by norm_num
  have hrun : updateWeights (Libm.mk Real.sqrt Real.sin Real.cos Real.exp Real.pi) 50
        (fun _ => 1) [⟨-1, 1, 0⟩] ⟨[⟨3, 1, 0⟩]⟩
        { num_particles := 1, is_initialized := true,
          particles := [⟨0, 0, 0, 0, 1⟩], weights := [1] } =
      some { num_particles := 1, is_initialized := true,
             particles := [⟨0, 0, 0, 0, 1 / Real.sqrt (2 * Real.pi)⟩],
             weights := [1 / Real.sqrt (2 * Real.pi)] } := by
    simp [updateWeights, updateWeights_step, predicted_landmarks, dataAssociation,
      dataAssociation_inner, weight_loop, at_index, h50, List.range_succ]
  exact ⟨rfl, rfl, hrun,
    (updateWeights_weight_formula 50 (fun _ => 1) [⟨-1, 1, 0⟩] ⟨[⟨3, 1, 0⟩]⟩
      { num_particles := 1, is_initialized := true,
        particles := [⟨0, 0, 0, 0, 1⟩], weights := [1] } rfl rfl).2 _ hrun 0
      ⟨0, 0, 0, 0, 1⟩ rfl (by simp [predicted_landmarks, h50])⟩

/-- C4 (the code does otherwise): a particle at the origin, the only landmark at
`(100, 0)` beyond the sensor range 50, and one observation.  The candidate
list is empty, the lookup `predicted_landmarks[l_id]` is out of range and the
call has no defined result, so no weight 1.0 is left. -/
theorem updateWeights_empty_candidates_out_of_range :
    predicted_landmarks (Libm.mk Real.sqrt Real.sin Real.cos Real.exp Real.pi)
        50 ⟨[⟨1, 100, 0⟩]⟩ 0 0 0 = [] ∧
    updateWeights (Libm.mk Real.sqrt Real.sin Real.cos Real.exp Real.pi) 50 (fun _ => 1)
        [⟨0, 1, 1⟩] ⟨[⟨1, 100, 0⟩]⟩
        { num_particles := 1, is_initialized := true,
          particles := [⟨0, 0, 0, 0, 1⟩], weights := [1] } = none := by
  have hfar : ¬ Real.sqrt ((100 - 0) ^ 2 + (0 - 0) ^ 2) ≤ 50 := by
    rw [not_le, Real.lt_sqrt (by norm_num)]
    norm_num
  have hcand : predicted_landmarks (Libm.mk Real.sqrt Real.sin Real.cos Real.exp Real.pi)
      50 ⟨[⟨1, 100, 0⟩]⟩ 0 0 0 = [] := by
    simp only [predicted_landmarks, List.foldl_cons, List.foldl_nil, hfar, if_false]
  exact ⟨hcand, updateWeights_empty_candidates _ 50 (fun _ => 1) [⟨0, 1, 1⟩]
    ⟨[⟨1, 100, 0⟩]⟩ _ rfl rfl 0 ⟨0, 0, 0, 0, 1⟩ rfl hcand (by simp)⟩

/-- C10: weight monotonicity.  With `std_landmark[0] > 0`, `std_landmark[1] > 0`
and a non-empty observation list, in one call of `updateWeights` a particle
for which every observation coincides with the candidate matched to it gets a
strictly higher weight than a particle for which every observation differs
from its matched candidate by the same residual `(dx, dy) ≠ (0, 0)`. -/
theorem updateWeights_weight_monotone (sensor_range : ℝ) (std_landmark : Nat → ℝ)
    (observations : List (LandmarkObs ℝ)) (map_landmarks : Map ℝ)
    (f f' : ParticleFilter ℝ) (a b : Nat) (pa pb : Particle ℝ) (dx dy : ℝ)
    (hN : f.num_particles = f.particles.length)
    (hW : f.weights.length = f.particles.length)
    (hsx : 0 < std_landmark 0) (hsy : 0 < std_landmark 1)
    (hobs : observations ≠ [])
    (hrun : updateWeights (Libm.mk Real.sqrt Real.sin Real.cos Real.exp Real.pi)
      sensor_range std_landmark observations map_landmarks f = some f')
    (hpa : f.particles[a]? = some pa) (hpb : f.particles[b]? = some pb)
    (hres : dx ≠ 0 ∨ dy ≠ 0)
    (hexact : ∀ o ∈ dataAssociation (Libm.mk Real.sqrt Real.sin Real.cos Real.exp Real.pi)
        (predicted_landmarks (Libm.mk Real.sqrt Real.sin Real.cos Real.exp Real.pi)
          sensor_range map_landmarks pa.x pa.y pa.theta) observations,
      ∃ (l : Nat) (c : LandmarkObs ℝ), o.id = (l : Int) ∧
        (predicted_landmarks (Libm.mk Real.sqrt Real.sin Real.cos Real.exp Real.pi)
          sensor_range map_landmarks pa.x pa.y pa.theta)[l]? = some c ∧
        o.x = c.x ∧ o.y = c.y)
    (hoffset : ∀ o ∈ dataAssociation (Libm.mk Real.sqrt Real.sin Real.cos Real.exp Real.pi)
        (predicted_landmarks (Libm.mk Real.sqrt Real.sin Real.cos Real.exp Real.pi)
          sensor_range map_landmarks pb.x pb.y pb.theta) observations,
      ∃ (l : Nat) (c : LandmarkObs ℝ), o.id = (l : Int) ∧
        (predicted_landmarks (Libm.mk Real.sqrt Real.sin Real.cos Real.exp Real.pi)
          sensor_range map_landmarks pb.x pb.y pb.theta)[l]? = some c ∧
        o.x - c.x = dx ∧ o.y - c.y = dy) :
    ∃ wa wb : ℝ,
      f'.particles[a]? = some { pa with weight := wa } ∧ f'.weights[a]? = some wa ∧
      f'.particles[b]? = some { pb with weight := wb } ∧ f'.weights[b]? = some wb ∧
      wb < wa := by
  rcases updateWeights_spec (Libm.mk Real.sqrt Real.sin Real.cos Real.exp Real.pi)
    sensor_range std_landmark observations map_landmarks f hN hW with
    ⟨f1, hf1, _, _, _, _, hall⟩ | ⟨hnone, _⟩
  swap
  · rw [hnone] at hrun
    exact absurd hrun (by simp)
  have hff : f1 = f' := Option.some.inj (hf1.symm.trans hrun)
  subst hff
  obtain ⟨pa', wa, hpa', hwa, hparta, hwta⟩ := hall a (List.getElem?_eq_some_iff.1 hpa).1
  obtain ⟨pb', wb, hpb', hwb, hpartb, hwtb⟩ := hall b (List.getElem?_eq_some_iff.1 hpb).1
  have hpaa : pa' = pa := Option.some.inj (hpa'.symm.trans hpa)
  have hpbb : pb' = pb := Option.some.inj (hpb'.symm.trans hpb)
  subst hpaa
  subst hpbb
  refine ⟨wa, wb, hparta, hwta, hpartb, hwtb, ?_⟩
  have hA := weight_loop_const_residual
    (Libm.mk Real.sqrt Real.sin Real.cos Real.exp Real.pi) std_landmark
    (candidates (Libm.mk Real.sqrt Real.sin Real.cos Real.exp Real.pi)
      sensor_range map_landmarks pa') 0 0
    (dataAssociation (Libm.mk Real.sqrt Real.sin Real.cos Real.exp Real.pi)
      (candidates (Libm.mk Real.sqrt Real.sin Real.cos Real.exp Real.pi)
        sensor_range map_landmarks pa') observations) 1
    (fun o ho => by
      obtain ⟨l, c, hl, hc, hx, hy⟩ := hexact o ho
      exact ⟨c, by rw [hl, at_index_natCast]; exact hc, by rw [hx, sub_self],
        by rw [hy, sub_self]⟩)
  have hB := weight_loop_const_residual
    (Libm.mk Real.sqrt Real.sin Real.cos Real.exp Real.pi) std_landmark
    (candidates (Libm.mk Real.sqrt Real.sin Real.cos Real.exp Real.pi)
      sensor_range map_landmarks pb') dx dy
    (dataAssociation (Libm.mk Real.sqrt Real.sin Real.cos Real.exp Real.pi)
      (candidates (Libm.mk Real.sqrt Real.sin Real.cos Real.exp Real.pi)
        sensor_range map_landmarks pb') observations) 1
    (fun o ho => by
      obtain ⟨l, c, hl, hc, hx, hy⟩ := hoffset o ho
      exact ⟨c, by rw [hl, at_index_natCast]; exact hc, hx, hy⟩)
  unfold particle_weight at hwa hwb
  rw [hA] at hwa
  rw [hB] at hwb
  rw [dataAssociation_length] at hwa hwb
  have hwa' := Option.some.inj hwa
  have hwb' := Option.some.inj hwb
  rw [← hwa', ← hwb']
  simp only [one_mul]
  have hlen : observations.length ≠ 0 := fun h => hobs (List.length_eq_zero.1 h)
  have hD : 0 < Real.sqrt (2 * Real.pi * std_landmark 0 * std_landmark 1) :=
    Real.sqrt_pos.2 (by positivity)
  have hq : 0 < dx ^ 2 * std_landmark 0 + dy ^ 2 * std_landmark 1 := by
    rcases hres with h | h
    · have : 0 < dx ^ 2 := by positivity
      have := mul_pos this hsx
      have : 0 ≤ dy ^ 2 * std_landmark 1 := by positivity
      linarith
    · have : 0 < dy ^ 2 := by positivity
      have := mul_pos this hsy
      have : 0 ≤ dx ^ 2 * std_landmark 0 := by positivity
      linarith
  have hE : Real.exp (-0.5 * (dx ^ 2 * std_landmark 0 + dy ^ 2 * std_landmark 1)) <
      Real.exp (-0.5 * ((0 : ℝ) ^ 2 * std_landmark 0 + (0 : ℝ) ^ 2 * std_landmark 1)) := by
    apply Real.exp_lt_exp.2
    norm_num
    exact hq
  exact pow_lt_pow_left₀ (div_lt_div_of_pos_right hE hD)
    (div_nonneg (Real.exp_pos _).le hD.le) hlen

/-- C10, on an example: the landmark and the observation are both at the
origin; the particle at the origin sees the observation on its candidate, the
particle at `(1, 0)` sees it offset by `(1, 0)`, and gets the smaller weight. -/
theorem updateWeights_weight_monotone_witness :
    (2 = ([⟨0, 0, 0, 0, 1⟩, ⟨1, 1, 0, 0, 1⟩] : List (Particle ℝ)).length) ∧
    (([1, 1] : List ℝ).length =
      ([⟨0, 0, 0, 0, 1⟩, ⟨1, 1, 0, 0, 1⟩] : List (Particle ℝ)).length) ∧
    ((0 : ℝ) < (fun _ => (1 : ℝ)) 0) ∧ ((0 : ℝ) < (fun _ => (1 : ℝ)) 1) ∧
    (([⟨-1, 0, 0⟩] : List (LandmarkObs ℝ)) ≠ []) ∧
    (updateWeights (Libm.mk Real.sqrt Real.sin Real.cos Real.exp Real.pi) 50 (fun _ => 1)
        [⟨-1, 0, 0⟩] ⟨[⟨5, 0, 0⟩]⟩
        { num_particles := 2, is_initialized := true,
          particles := [⟨0, 0, 0, 0, 1⟩, ⟨1, 1, 0, 0, 1⟩], weights := [1, 1] } =
      some { num_particles := 2, is_initialized := true,
             particles := [⟨0, 0, 0, 0, 1 / Real.sqrt (2 * Real.pi)⟩,
                           ⟨1, 1, 0, 0, Real.exp (-0.5) / Real.sqrt (2 * Real.pi)⟩],
             weights := [1 / Real.sqrt (2 * Real.pi),
                         Real.exp (-0.5) / Real.sqrt (2 * Real.pi)] }) ∧
    ((1 : ℝ) ≠ 0 ∨ (0 : ℝ) ≠ 0) ∧
    ∃ wa wb : ℝ,
      ([⟨0, 0, 0, 0, 1 / Real.sqrt (2 * Real.pi)⟩,
        ⟨1, 1, 0, 0, Real.exp (-0.5) / Real.sqrt (2 * Real.pi)⟩] : List (Particle ℝ))[0]? =
        some ⟨0, 0, 0, 0, wa⟩ ∧
      ([1 / Real.sqrt (2 * Real.pi),
        Real.exp (-0.5) / Real.sqrt (2 * Real.pi)] : List ℝ)[0]? = some wa ∧
      ([⟨0, 0, 0, 0, 1 / Real.sqrt (2 * Real.pi)⟩,
        ⟨1, 1, 0, 0, Real.exp (-0.5) / Real.sqrt (2 * Real.pi)⟩] : List (Particle ℝ))[1]? =
        some ⟨1, 1, 0, 0, wb⟩ ∧
      ([1 / Real.sqrt (2 * Real.pi),
        Real.exp (-0.5) / Real.sqrt (2 * Real.pi)] : List ℝ)[1]? = some wb ∧
      wb < wa := by
  have h50 : (1 : ℝ) ≤ 50 := by norm_num
  have h0 : (0 : ℝ) ≤ 50 := by norm_num
  have hrun : updateWeights (Libm.mk Real.sqrt Real.sin Real.cos Real.exp Real.pi) 50
        (fun _ => 1) [⟨-1, 0, 0⟩] ⟨[⟨5, 0, 0⟩]⟩
        { num_particles := 2, is_initialized := true,
          particles := [⟨0, 0, 0, 0, 1⟩, ⟨1, 1, 0, 0, 1⟩], weights := [1, 1] } =
      some { num_particles := 2, is_initialized := true,
             particles := [⟨0, 0, 0, 0, 1 / Real.sqrt (2 * Real.pi)⟩,
                           ⟨1, 1, 0, 0, Real.exp (-0.5) / Real.sqrt (2 * Real.pi)⟩],
             weights := [1 / Real.sqrt (2 * Real.pi),
                         Real.exp (-0.5) / Real.sqrt (2 * Real.pi)] } := by
    simp [updateWeights, updateWeights_step, predicted_landmarks, dataAssociation,
      dataAssociation_inner, weight_loop, at_index, h50, h0, List.range_succ]
  have hcA : predicted_landmarks (Libm.mk Real.sqrt Real.sin Real.cos Real.exp Real.pi)
      50 ⟨[⟨5, 0, 0⟩]⟩ 0 0 0 = [⟨5, 0, 0⟩] := by
    simp [predicted_landmarks, h0]
  have hcB : predicted_landmarks (Libm.mk Real.sqrt Real.sin Real.cos Real.exp Real.pi)
      50 ⟨[⟨5, 0, 0⟩]⟩ 1 0 0 = [⟨5, -1, 0⟩] := by
    simp [predicted_landmarks, h50]
  refine ⟨rfl, rfl, one_pos, one_pos, by simp, hrun, Or.inl one_ne_zero,
    updateWeights_weight_monotone 50 (fun _ => 1) [⟨-1, 0, 0⟩] ⟨[⟨5, 0, 0⟩]⟩ _ _ 0 1
      ⟨0, 0, 0, 0, 1⟩ ⟨1, 1, 0, 0, 1⟩ 1 0 rfl rfl one_pos one_pos (by simp) hrun rfl rfl
      (Or.inl one_ne_zero) ?_ ?_⟩
  · intro o ho
    rw [hcA] at ho ⊢
    simp only [dataAssociation, dataAssociation_inner, List.map_cons, List.map_nil,
      List.mem_singleton] at ho
    subst ho
    exact ⟨0, ⟨5, 0, 0⟩, by simp, rfl, rfl, rfl⟩
  · intro o ho
    rw [hcB] at ho ⊢
    simp only [dataAssociation, dataAssociation_inner, List.map_cons, List.map_nil,
      List.mem_singleton] at ho
    subst ho
    exact ⟨0, ⟨5, -1, 0⟩, by simp, rfl, by simp, by simp⟩

/-! ## Claims on the particle set and the weight vector -/

/-- C7: cardinality invariance.  After `init` on a fresh filter and after every
finite sequence of `prediction`, `updateWeights` and `resample` calls that has
a result, whatever the random draws, `num_particles` is 200 and the particle
set and the weight vector have exactly 200 elements; and the sequence has a
result whenever each of its calls stays within defined behaviour. -/
theorem cardinality_invariance (draw : NormalDraw ℝ) (x y theta : ℝ) (std : Nat → ℝ)
    (calls : List (Call ℝ)) :
    (∀ f' : ParticleFilter ℝ,
      run_calls (Libm.mk Real.sqrt Real.sin Real.cos Real.exp Real.pi) calls
        (init draw x y theta std (fresh ℝ)) = some f' →
      f'.num_particles = 200 ∧ f'.particles.length = 200 ∧ f'.weights.length = 200) ∧
    (calls_defined (Libm.mk Real.sqrt Real.sin Real.cos Real.exp Real.pi) calls
        (init draw x y theta std (fresh ℝ)) →
      ∃ f' : ParticleFilter ℝ,
        run_calls (Libm.mk Real.sqrt Real.sin Real.cos Real.exp Real.pi) calls
          (init draw x y theta std (fresh ℝ)) = some f') :=
  ⟨fun f' hrun => run_calls_has_N _ calls _ f' (init_fresh_has_N draw x y theta std) hrun,
   fun hdef => run_calls_defined _ calls _ (init_fresh_has_N draw x y theta std) hdef⟩

/-- C7, on an example: `init` at the origin with draws that return their mean,
then `updateWeights` with a landmark and an observation at the origin,
`resample` drawing index 0 every time, and `prediction`.  Every call is
defined, the sequence has a result, and that result has 200 particles and
200 weights. -/
theorem cardinality_invariance_witness :
    calls_defined (Libm.mk Real.sqrt Real.sin Real.cos Real.exp Real.pi)
      [Call.updateWeights 50 (fun _ => 1) [⟨-1, 0, 0⟩] ⟨[⟨5, 0, 0⟩]⟩,
       Call.resample (fun _ => 0),
       Call.prediction (fun _ _ m _ => m) 1 (fun _ => 0) 2 0]
      (init (fun _ _ m _ => m) 0 0 0 (fun _ => 0) (fresh ℝ)) ∧
    ∃ f' : ParticleFilter ℝ,
      run_calls (Libm.mk Real.sqrt Real.sin Real.cos Real.exp Real.pi)
        [Call.updateWeights 50 (fun _ => 1) [⟨-1, 0, 0⟩] ⟨[⟨5, 0, 0⟩]⟩,
         Call.resample (fun _ => 0),
         Call.prediction (fun _ _ m _ => m) 1 (fun _ => 0) 2 0]
        (init (fun _ _ m _ => m) 0 0 0 (fun _ => 0) (fresh ℝ)) = some f' ∧
      f'.num_particles = 200 ∧ f'.particles.length = 200 ∧ f'.weights.length = 200 := by
  have h0 : (0 : ℝ) ≤ 50 := by norm_num
  have hN := init_fresh_has_N (fun (_ _ : Nat) (m _ : ℝ) => m) 0 0 0 (fun _ => 0)
  have hdef : calls_defined (Libm.mk Real.sqrt Real.sin Real.cos Real.exp Real.pi)
      [Call.updateWeights 50 (fun _ => 1) [⟨-1, 0, 0⟩] ⟨[⟨5, 0, 0⟩]⟩,
       Call.resample (fun _ => 0),
       Call.prediction (fun _ _ m _ => m) 1 (fun _ => 0) 2 0]
      (init (fun _ _ m _ => m) 0 0 0 (fun _ => 0) (fresh ℝ)) := by
    refine ⟨Or.inr ?_, fun f1 h1 => ⟨?_, fun f2 _ => ⟨trivial, fun _ _ => trivial⟩⟩⟩
    · intro p hp
      rw [init_fresh] at hp
      obtain ⟨i, _, rfl⟩ := List.mem_map.1 hp
      simp [candidates, predicted_landmarks, h0]
    · have hN1 := run_has_N _ _ _ f1 hN h1
      intro c _
      rw [hN1.2.2]
      norm_num
  have h := cardinality_invariance (fun _ _ m _ => m) 0 0 0 (fun _ => 0)
    [Call.updateWeights 50 (fun _ => 1) [⟨-1, 0, 0⟩] ⟨[⟨5, 0, 0⟩]⟩,
     Call.resample (fun _ => 0),
     Call.prediction (fun _ _ m _ => m) 1 (fun _ => 0) 2 0]
  obtain ⟨f', hf'⟩ := h.2 hdef
  exact ⟨hdef, f', hf', h.1 f' hf'⟩

/-- C9: for draws that are values of a distribution over `weights` (below
`weights.size()`, which is the number of particles), `resample` has a result;
the new particle set has the size of the old one, its element at position `c`
is the old particle at the `c`-th drawn index with all five fields, and so
every new particle is a particle of the old set.  Nothing else changes. -/
theorem resample_copies_old_particles (index : Nat → Nat) (f : ParticleFilter ℝ)
    (hW : f.weights.length = f.particles.length)
    (hidx : ∀ c : Nat, c < f.particles.length → index c < f.weights.length) :
    ∃ f' : ParticleFilter ℝ,
      resample index f = some f' ∧
      f'.particles.length = f.particles.length ∧
      (∀ c : Nat, c < f.particles.length →
        ∃ p : Particle ℝ, f.particles[index c]? = some p ∧ f'.particles[c]? = some p) ∧
      (∀ p ∈ f'.particles, p ∈ f.particles) ∧
      f'.weights = f.weights ∧ f'.num_particles = f.num_particles ∧
      f'.is_initialized = f.is_initialized := by
  rcases resample_spec index f with ⟨r, hr, hlen, hget⟩ | ⟨_, c, hc, hnone⟩
  · refine ⟨_, hr, hlen, hget, ?_, rfl, rfl, rfl⟩
    intro p hp
    obtain ⟨c, hc⟩ := List.mem_iff_getElem?.1 hp
    have hcl : c < f.particles.length := by
      have := (List.getElem?_eq_some_iff.1 hc).1
      exact hlen ▸ this
    obtain ⟨q, hq, hrq⟩ := hget c hcl
    have hpq : q = p := Option.some.inj (hrq.symm.trans hc)
    exact hpq ▸ List.getElem?_mem hq
  · have h1 := hidx c hc
    have h2 : f.particles[index c]? ≠ none := by
      rw [List.getElem?_eq_getElem (by omega)]
      simp
    exact absurd hnone h2

/-- C9, on an example: two particles, both draws give index 1; the new set is
two copies of the old second particle and the weight vector is untouched. -/
theorem resample_copies_old_particles_witness :
    (([1, 2] : List ℝ).length =
      ([⟨0, 3, 4, 5, 1⟩, ⟨1, 6, 7, 8, 2⟩] : List (Particle ℝ)).length) ∧
    (∀ c : Nat, c < ([⟨0, 3, 4, 5, 1⟩, ⟨1, 6, 7, 8, 2⟩] : List (Particle ℝ)).length →
      (fun _ => 1) c < ([1, 2] : List ℝ).length) ∧
    resample (fun _ => 1)
      { num_particles := 2, is_initialized := true,
        particles := ([⟨0, 3, 4, 5, 1⟩, ⟨1, 6, 7, 8, 2⟩] : List (Particle ℝ)),
        weights := [1, 2] } =
      some { num_particles := 2, is_initialized := true,
             particles := [⟨1, 6, 7, 8, 2⟩, ⟨1, 6, 7, 8, 2⟩], weights := [1, 2] } ∧
    ∃ f' : ParticleFilter ℝ,
      resample (fun _ => 1)
        { num_particles := 2, is_initialized := true,
          particles := ([⟨0, 3, 4, 5, 1⟩, ⟨1, 6, 7, 8, 2⟩] : List (Particle ℝ)),
          weights := [1, 2] } = some f' ∧
      f'.particles.length = 2 ∧
      ∀ p ∈ f'.particles, p ∈ ([⟨0, 3, 4, 5, 1⟩, ⟨1, 6, 7, 8, 2⟩] : List (Particle ℝ)) := by
  have hidx : ∀ c : Nat,
      c < ([⟨0, 3, 4, 5, 1⟩, ⟨1, 6, 7, 8, 2⟩] : List (Particle ℝ)).length →
      (fun _ => 1) c < ([1, 2] : List ℝ).length := fun _ _ => by simp
  obtain ⟨f', hf', hlen, _, hmem, _⟩ := resample_copies_old_particles (fun _ => 1)
    { num_particles := 2, is_initialized := true,
      particles := ([⟨0, 3, 4, 5, 1⟩, ⟨1, 6, 7, 8, 2⟩] : List (Particle ℝ)),
      weights := [1, 2] } rfl hidx
  refine ⟨rfl, hidx, ?_, f', hf', hlen, hmem⟩
  simp [resample, resample_step, List.range_succ]

/-- C8 fails after `resample`: `init` at the origin where only the `x` draw of
particle 0 deviates (it is 1), `updateWeights` with a landmark and an
observation at the origin, then `resample` drawing index 0 every time.  The
new particle at position 1 is a copy of the old particle 0 and carries its
weight `exp(-0.5)/sqrt(2*pi)`, while `weights[1]` still holds the weight
`1/sqrt(2*pi)` of the old particle 1. -/
theorem weights_not_consistent_after_resample :
    ∃ f1 f2 : ParticleFilter ℝ,
      updateWeights (Libm.mk Real.sqrt Real.sin Real.cos Real.exp Real.pi) 50 (fun _ => 1)
        [⟨-1, 0, 0⟩] ⟨[⟨5, 0, 0⟩]⟩
        (init (fun i k m _ => if i = 0 ∧ k = 0 then 1 else m) 0 0 0 (fun _ => 1)
          (fresh ℝ)) = some f1 ∧
      resample (fun _ => 0) f1 = some f2 ∧
      f2.weights[1]? = some (1 / Real.sqrt (2 * Real.pi)) ∧
      f2.particles[1]? = some ⟨0, 1, 0, 0, Real.exp (-0.5) / Real.sqrt (2 * Real.pi)⟩ ∧
      Real.exp (-0.5) / Real.sqrt (2 * Real.pi) ≠ 1 / Real.sqrt (2 * Real.pi) ∧
      ¬ weights_consistent f2 := by
  have h50 : (1 : ℝ) ≤ 50 := by norm_num
  have h0 : (0 : ℝ) ≤ 50 := by norm_num
  have hN := init_fresh_has_N (fun (i k : Nat) (m _ : ℝ) => if i = 0 ∧ k = 0 then 1 else m)
    0 0 0 (fun _ => 1)
  have hp0 : (init (fun (i k : Nat) (m _ : ℝ) => if i = 0 ∧ k = 0 then 1 else m) 0 0 0
      (fun _ => 1) (fresh ℝ)).particles[0]? = some ⟨0, 1, 0, 0, 1⟩ := by
    rw [init_fresh]
    simp [List.getElem?_range]
  have hp1 : (init (fun (i k : Nat) (m _ : ℝ) => if i = 0 ∧ k = 0 then 1 else m) 0 0 0
      (fun _ => 1) (fresh ℝ)).particles[1]? = some ⟨1, 0, 0, 0, 1⟩ := by
    rw [init_fresh]
    simp [List.getElem?_range]
  have hw0 : particle_weight (Libm.mk Real.sqrt Real.sin Real.cos Real.exp Real.pi) 50
      (fun _ => 1) ⟨[⟨5, 0, 0⟩]⟩ [⟨-1, 0, 0⟩] ⟨0, 1, 0, 0, 1⟩ =
        some (Real.exp (-0.5) / Real.sqrt (2 * Real.pi)) := by
    simp [particle_weight, candidates, predicted_landmarks, dataAssociation,
      dataAssociation_inner, weight_loop, at_index, h50]
  have hw1 : particle_weight (Libm.mk Real.sqrt Real.sin Real.cos Real.exp Real.pi) 50
      (fun _ => 1) ⟨[⟨5, 0, 0⟩]⟩ [⟨-1, 0, 0⟩] ⟨1, 0, 0, 0, 1⟩ =
        some (1 / Real.sqrt (2 * Real.pi)) := by
    simp [particle_weight, candidates, predicted_landmarks, dataAssociation,
      dataAssociation_inner, weight_loop, at_index, h0]
  have hne : Real.exp (-0.5) / Real.sqrt (2 * Real.pi) ≠ 1 / Real.sqrt (2 * Real.pi) := by
    have hD : 0 < Real.sqrt (2 * Real.pi) := Real.sqrt_pos.2 (by positivity)
    have hE : Real.exp (-0.5) < 1 := Real.exp_lt_one_iff.2 (by norm_num)
    exact ne_of_lt (div_lt_div_of_pos_right hE hD)
  rcases updateWeights_spec (Libm.mk Real.sqrt Real.sin Real.cos Real.exp Real.pi) 50
    (fun _ => 1) [⟨-1, 0, 0⟩] ⟨[⟨5, 0, 0⟩]⟩ _ (hN.1.trans hN.2.1.symm)
    (hN.2.2.trans hN.2.1.symm) with
    ⟨f1, hf1, _, _, hpl, hwl, hall⟩ | ⟨_, i, p, hpi, hnone⟩
  swap
  · exfalso
    rw [init_fresh] at hpi
    obtain ⟨j, _, hj⟩ := List.mem_map.1 (List.getElem?_mem hpi)
    have hc : candidates (Libm.mk Real.sqrt Real.sin Real.cos Real.exp Real.pi) 50
        ⟨[⟨5, 0, 0⟩]⟩ p ≠ [] := by
      rw [← hj]
      by_cases hj0 : j = 0 <;> simp [candidates, predicted_landmarks, h0, h50, hj0]
    obtain ⟨w, hw⟩ := particle_weight_of_candidates _ 50 (fun _ => 1) ⟨[⟨5, 0, 0⟩]⟩
      [⟨-1, 0, 0⟩] p hc
    rw [hw] at hnone
    exact absurd hnone (by simp)
  obtain ⟨q0, w0, hq0, hqw0, hpart0, _⟩ := hall 0 (by rw [hN.2.1]; norm_num)
  obtain ⟨q1, w1, hq1, hqw1, _, hwt1⟩ := hall 1 (by rw [hN.2.1]; norm_num)
  have e0 : q0 = ⟨0, 1, 0, 0, 1⟩ := Option.some.inj (hq0.symm.trans hp0)
  have e1 : q1 = ⟨1, 0, 0, 0, 1⟩ := Option.some.inj (hq1.symm.trans hp1)
  rw [e0] at hqw0 hpart0
  rw [e1] at hqw1
  have ew0 := Option.some.inj (hqw0.symm.trans hw0)
  have ew1 := Option.some.inj (hqw1.symm.trans hw1)
  rw [ew0] at hpart0
  rw [ew1] at hwt1
  rcases resample_spec (fun _ => 0) f1 with ⟨r, hr, _, hget⟩ | ⟨_, c, _, hnone⟩
  swap
  · rw [hpart0] at hnone
    exact absurd hnone (by simp)
  obtain ⟨q, hq, hrq⟩ := hget 1 (by rw [hpl, hN.2.1]; norm_num)
  have eq : q = ⟨0, 1, 0, 0, Real.exp (-0.5) / Real.sqrt (2 * Real.pi)⟩ :=
    Option.some.inj (hq.symm.trans hpart0)
  rw [eq] at hrq
  refine ⟨f1, _, hf1, hr, hwt1, hrq, hne, ?_⟩
  intro hcons
  unfold weights_consistent at hcons
  have h1 := congrArg (fun l => l[1]?) hcons
  simp only [List.getElem?_map, hwt1, hrq, Option.map_some', Option.some.injEq] at h1
  exact hne h1.symm

/-- C8 as amended: on every filter reached from `init` on a fresh filter,
`weights[i]` is `particles[i].weight` at every position after `init` and after
every `updateWeights` call; `prediction` always has a result and changes no
weight in either place (the weight vector and the list of particle weights
are the ones from before the call), so it keeps the equality when it holds
before the call; `resample` leaves `weights` as it was and puts at position
`c` the old particle at the `c`-th drawn index, so when the equality holds
before the call `weights[c]` is afterwards still the weight of the old
particle at position `c`. -/
theorem weights_consistent_except_resample (draw : NormalDraw ℝ) (x y theta : ℝ)
    (std : Nat → ℝ) (calls : List (Call ℝ)) (f : ParticleFilter ℝ)
    (hreach : run_calls (Libm.mk Real.sqrt Real.sin Real.cos Real.exp Real.pi) calls
      (init draw x y theta std (fresh ℝ)) = some f) :
    weights_consistent (init draw x y theta std (fresh ℝ)) ∧
    (∀ (sensor_range : ℝ) (std_landmark : Nat → ℝ) (observations : List (LandmarkObs ℝ))
        (map_landmarks : Map ℝ) (f' : ParticleFilter ℝ),
      updateWeights (Libm.mk Real.sqrt Real.sin Real.cos Real.exp Real.pi)
        sensor_range std_landmark observations map_landmarks f = some f' →
      weights_consistent f') ∧
    (∀ (noise : NormalDraw ℝ) (delta_t : ℝ) (std_pos : Nat → ℝ) (velocity yaw_rate : ℝ),
      ∃ f' : ParticleFilter ℝ,
        prediction (Libm.mk Real.sqrt Real.sin Real.cos Real.exp Real.pi)
          noise delta_t std_pos velocity yaw_rate f = some f' ∧
        f'.weights = f.weights ∧
        f'.particles.map (fun p => p.weight) = f.particles.map (fun p => p.weight) ∧
        (weights_consistent f → weights_consistent f')) ∧
    (∀ (index : Nat → Nat) (f' : ParticleFilter ℝ), resample index f = some f' →
      f'.weights = f.weights ∧
      (∀ c : Nat, c < f.particles.length →
        ∃ p : Particle ℝ, f.particles[index c]? = some p ∧ f'.particles[c]? = some p) ∧
      (weights_consistent f → ∀ (c : Nat) (p : Particle ℝ), f.particles[c]? = some p →
        f'.weights[c]? = some p.weight)) := by
  have hN := run_calls_has_N _ calls _ f (init_fresh_has_N draw x y theta std) hreach
  refine ⟨?_, ?_, ?_, ?_⟩
  · rw [init_fresh]
    simp [weights_consistent, Function.comp_def]
  · intro sensor_range std_landmark observations map_landmarks f' hrun
    exact (updateWeights_has_N _ sensor_range std_landmark observations map_landmarks
      f f' hN hrun).2
  · intro noise delta_t std_pos velocity yaw_rate
    obtain ⟨f', hf', _, hw, hp⟩ := prediction_has_N
      (Libm.mk Real.sqrt Real.sin Real.cos Real.exp Real.pi)
      noise delta_t std_pos velocity yaw_rate f hN
    refine ⟨f', hf', hw, hp, ?_⟩
    intro hc
    unfold weights_consistent at hc ⊢
    rw [hw, hp, hc]
  · intro index f' hrun
    rcases resample_spec index f with ⟨r, hr, _, hget⟩ | ⟨hnone, _⟩
    · have hff := Option.some.inj (hr.symm.trans hrun)
      rw [← hff]
      refine ⟨rfl, hget, ?_⟩
      intro hc c p hp
      unfold weights_consistent at hc
      simp only [hc, List.getElem?_map, hp, Option.map_some']
    · rw [hnone] at hrun
      exact absurd hrun (by simp)

/-- C8 as amended, on an example: `init` at the origin with draws that return
their mean, then `updateWeights` with a landmark and an observation at the
origin.  The filter reached has `weights[i] = particles[i].weight`; a
`prediction` call on it has a result with the same weight vector and the same
particle weights, still equal; a `resample` call drawing index 0 every time
has a result with the same weight vector, whose particles are copies of the
old particle 0. -/
theorem weights_consistent_except_resample_witness :
    ∃ f : ParticleFilter ℝ,
      run_calls (Libm.mk Real.sqrt Real.sin Real.cos Real.exp Real.pi)
        [Call.updateWeights 50 (fun _ => 1) [⟨-1, 0, 0⟩] ⟨[⟨5, 0, 0⟩]⟩]
        (init (fun _ _ m _ => m) 0 0 0 (fun _ => 0) (fresh ℝ)) = some f ∧
      weights_consistent f ∧
      (∃ f' : ParticleFilter ℝ,
        prediction (Libm.mk Real.sqrt Real.sin Real.cos Real.exp Real.pi)
          (fun _ _ m _ => m) 1 (fun _ => 0) 2 0 f = some f' ∧
        f'.weights = f.weights ∧
        f'.particles.map (fun p => p.weight) = f.particles.map (fun p => p.weight) ∧
        weights_consistent f') ∧
      (∃ f' : ParticleFilter ℝ,
        resample (fun _ => 0) f = some f' ∧ f'.weights = f.weights ∧
        (∀ c : Nat, c < f.particles.length →
          ∃ p : Particle ℝ, f.particles[0]? = some p ∧ f'.particles[c]? = some p) ∧
        ∀ (c : Nat) (p : Particle ℝ), f.particles[c]? = some p →
          f'.weights[c]? = some p.weight) := by
  have h0 : (0 : ℝ) ≤ 50 := by norm_num
  have hN0 := init_fresh_has_N (fun (_ _ : Nat) (m _ : ℝ) => m) 0 0 0 (fun _ => 0)
  have hdef : calls_defined (Libm.mk Real.sqrt Real.sin Real.cos Real.exp Real.pi)
      [Call.updateWeights 50 (fun _ => 1) [⟨-1, 0, 0⟩] ⟨[⟨5, 0, 0⟩]⟩]
      (init (fun _ _ m _ => m) 0 0 0 (fun _ => 0) (fresh ℝ)) := by
    refine ⟨Or.inr ?_, fun _ _ => trivial⟩
    intro p hp
    rw [init_fresh] at hp
    obtain ⟨i, _, rfl⟩ := List.mem_map.1 hp
    simp [candidates, predicted_landmarks, h0]
  obtain ⟨f, hf⟩ := run_calls_defined _ _ _ hN0 hdef
  have hNf := run_calls_has_N _ _ _ f hN0 hf
  have hupd : updateWeights (Libm.mk Real.sqrt Real.sin Real.cos Real.exp Real.pi) 50
      (fun _ => 1) [⟨-1, 0, 0⟩] ⟨[⟨5, 0, 0⟩]⟩
      (init (fun _ _ m _ => m) 0 0 0 (fun _ => 0) (fresh ℝ)) = some f := by
    simpa [run_calls, Call.run] using hf
  have hcons : weights_consistent f :=
    (weights_consistent_except_resample (fun _ _ m _ => m) 0 0 0 (fun _ => 0) [] _ rfl).2.1
      50 (fun _ => 1) [⟨-1, 0, 0⟩] ⟨[⟨5, 0, 0⟩]⟩ f hupd
  have hall := weights_consistent_except_resample (fun _ _ m _ => m) 0 0 0 (fun _ => 0)
    [Call.updateWeights 50 (fun _ => 1) [⟨-1, 0, 0⟩] ⟨[⟨5, 0, 0⟩]⟩] f hf
  obtain ⟨f1, hf1, hw1, hp1, hc1⟩ := hall.2.2.1 (fun _ _ m _ => m) 1 (fun _ => 0) 2 0
  obtain ⟨f2, hf2⟩ := resample_defined (fun _ => 0) f hNf
    (fun c _ => by rw [hNf.2.2]; norm_num)
  obtain ⟨hw2, hget2, hstale2⟩ := hall.2.2.2 (fun _ => 0) f2 hf2
  exact ⟨f, hf, hcons, ⟨f1, hf1, hw1, hp1, hc1 hcons⟩, ⟨f2, hf2, hw2, hget2, hstale2 hcons⟩⟩

/-! ## Further facts on `updateWeights` -/

section Alone

variable {α : Type} [LinearOrderedField α]

/-- The weight `particle_weight` computes reads the particle's pose only. -/
theorem particle_weight_pose (M : Libm α) (sensor_range : α) (std_landmark : Nat → α)
    (map_landmarks : Map α) (observations : List (LandmarkObs α)) (p q : Particle α)
    (hx : q.x = p.x) (hy : q.y = p.y) (ht : q.theta = p.theta) :
    particle_weight M sensor_range std_landmark map_landmarks observations q =
      particle_weight M sensor_range std_landmark map_landmarks observations p := by
  simp only [particle_weight, candidates, hx, hy, ht]

/-- The call of `updateWeights` on a filter that holds the single particle `q`. -/
theorem updateWeights_single (M : Libm α) (sensor_range : α) (std_landmark : Nat → α)
    (observations : List (LandmarkObs α)) (map_landmarks : Map α)
    (b : Bool) (q : Particle α) (w0 : α) :
    updateWeights M sensor_range std_landmark observations map_landmarks
        { num_particles := 1, is_initialized := b, particles := [q], weights := [w0] } =
      (particle_weight M sensor_range std_landmark map_landmarks observations q).map fun w =>
        { num_particles := 1, is_initialized := b,
          particles := [{ q with weight := w }], weights := [w] } := by
  have hstep := updateWeights_step_eq M sensor_range std_landmark map_landmarks
    { observations := observations, particles := [q], weights := [w0] } 0 q rfl
  simp only [updateWeights, List.range_succ, List.range_zero, List.nil_append,
    List.foldlM_cons, List.foldlM_nil, hstep]
  unfold particle_weight
  cases weight_loop M std_landmark (candidates M sensor_range map_landmarks q)
    (dataAssociation M (candidates M sensor_range map_landmarks q) observations) 1 with
  | none => rfl
  | some w => simp

end Alone

/-- C11: the weight `updateWeights` gives particle `i` is the weight the same
call gives on a filter that holds a single particle with the pose of particle
`i` (any id, any old weight), started on the caller's observation list: it
depends on that pose, the map, the sensor configuration and the observations
only, not on the other particles nor on the ids the previous particle left in
the shared list.  When the call has no result, some particle has none alone. -/
theorem updateWeights_weight_independent (sensor_range : ℝ) (std_landmark : Nat → ℝ)
    (observations : List (LandmarkObs ℝ)) (map_landmarks : Map ℝ) (f : ParticleFilter ℝ)
    (hN : f.num_particles = f.particles.length)
    (hW : f.weights.length = f.particles.length) :
    (∀ f' : ParticleFilter ℝ,
      updateWeights (Libm.mk Real.sqrt Real.sin Real.cos Real.exp Real.pi)
        sensor_range std_landmark observations map_landmarks f = some f' →
      ∀ (i : Nat) (p : Particle ℝ), f.particles[i]? = some p →
        ∃ w : ℝ,
          f'.particles[i]? = some { p with weight := w } ∧ f'.weights[i]? = some w ∧
          ∀ (q : Particle ℝ) (b : Bool) (w0 : ℝ),
            q.x = p.x → q.y = p.y → q.theta = p.theta →
            updateWeights (Libm.mk Real.sqrt Real.sin Real.cos Real.exp Real.pi)
                sensor_range std_landmark observations map_landmarks
                { num_particles := 1, is_initialized := b,
                  particles := [q], weights := [w0] } =
              some { num_particles := 1, is_initialized := b,
                     particles := [{ q with weight := w }], weights := [w] }) ∧
    (updateWeights (Libm.mk Real.sqrt Real.sin Real.cos Real.exp Real.pi)
        sensor_range std_landmark observations map_landmarks f = none →
      ∃ (i : Nat) (p : Particle ℝ), f.particles[i]? = some p ∧
        ∀ (b : Bool) (w0 : ℝ),
          updateWeights (Libm.mk Real.sqrt Real.sin Real.cos Real.exp Real.pi)
            sensor_range std_landmark observations map_landmarks
            { num_particles := 1, is_initialized := b,
              particles := [p], weights := [w0] } = none) := by
  rcases updateWeights_spec (Libm.mk Real.sqrt Real.sin Real.cos Real.exp Real.pi)
    sensor_range std_landmark observations map_landmarks f hN hW with
    ⟨f1, hf1, _, _, _, _, hall⟩ | ⟨hnone, i, p, hp, hw⟩
  · refine ⟨?_, ?_⟩
    · intro f' hf' i p hp
      have hff : f1 = f' := Option.some.inj (hf1.symm.trans hf')
      subst hff
      obtain ⟨p', w, hp', hw, hpart, hwt⟩ := hall i (List.getElem?_eq_some_iff.1 hp).1
      have hpp : p' = p := Option.some.inj (hp'.symm.trans hp)
      subst hpp
      refine ⟨w, hpart, hwt, ?_⟩
      intro q b w0 hx hy ht
      rw [updateWeights_single, particle_weight_pose _ _ _ _ _ p' q hx hy ht, hw]
      rfl
    · intro hnone
      rw [hf1] at hnone
      exact absurd hnone (by simp)
  · refine ⟨?_, ?_⟩
    · intro f' hf'
      rw [hnone] at hf'
      exact absurd hf' (by simp)
    · intro _
      refine ⟨i, p, hp, ?_⟩
      intro b w0
      rw [updateWeights_single, hw]
      rfl

/-- C11, on an example: two particles, at the origin and at `(1, 0)`, one
landmark and one observation at the origin.  The second particle gets the
weight `exp(-0.5)/sqrt(2*pi)` in the call on both particles, after the first
particle has left its ids in the observation list, and in a call alone. -/
theorem updateWeights_weight_independent_witness :
    (2 = ([⟨0, 0, 0, 0, 1⟩, ⟨1, 1, 0, 0, 1⟩] : List (Particle ℝ)).length) ∧
    (([1, 1] : List ℝ).length =
      ([⟨0, 0, 0, 0, 1⟩, ⟨1, 1, 0, 0, 1⟩] : List (Particle ℝ)).length) ∧
    (updateWeights (Libm.mk Real.sqrt Real.sin Real.cos Real.exp Real.pi) 50 (fun _ => 1)
        [⟨-1, 0, 0⟩] ⟨[⟨5, 0, 0⟩]⟩
        { num_particles := 2, is_initialized := true,
          particles := [⟨0, 0, 0, 0, 1⟩, ⟨1, 1, 0, 0, 1⟩], weights := [1, 1] } =
      some { num_particles := 2, is_initialized := true,
             particles := [⟨0, 0, 0, 0, 1 / Real.sqrt (2 * Real.pi)⟩,
                           ⟨1, 1, 0, 0, Real.exp (-0.5) / Real.sqrt (2 * Real.pi)⟩],
             weights := [1 / Real.sqrt (2 * Real.pi),
                         Real.exp (-0.5) / Real.sqrt (2 * Real.pi)] }) ∧
    ∃ w : ℝ,
      ([⟨0, 0, 0, 0, 1 / Real.sqrt (2 * Real.pi)⟩,
        ⟨1, 1, 0, 0, Real.exp (-0.5) / Real.sqrt (2 * Real.pi)⟩] : List (Particle ℝ))[1]? =
        some ⟨1, 1, 0, 0, w⟩ ∧
      ([1 / Real.sqrt (2 * Real.pi),
        Real.exp (-0.5) / Real.sqrt (2 * Real.pi)] : List ℝ)[1]? = some w ∧
      ∀ (q : Particle ℝ) (b : Bool) (w0 : ℝ), q.x = 1 → q.y = 0 → q.theta = 0 →
        updateWeights (Libm.mk Real.sqrt Real.sin Real.cos Real.exp Real.pi) 50 (fun _ => 1)
            [⟨-1, 0, 0⟩] ⟨[⟨5, 0, 0⟩]⟩
            { num_particles := 1, is_initialized := b, particles := [q], weights := [w0] } =
          some { num_particles := 1, is_initialized := b,
                 particles := [{ q with weight := w }], weights := [w] } := by
  have h50 : (1 : ℝ) ≤ 50 := by norm_num
  have h0 : (0 : ℝ) ≤ 50 := by norm_num
  have hrun : updateWeights (Libm.mk Real.sqrt Real.sin Real.cos Real.exp Real.pi) 50
        (fun _ => 1) [⟨-1, 0, 0⟩] ⟨[⟨5, 0, 0⟩]⟩
        { num_particles := 2, is_initialized := true,
          particles := [⟨0, 0, 0, 0, 1⟩, ⟨1, 1, 0, 0, 1⟩], weights := [1, 1] } =
      some { num_particles := 2, is_initialized := true,
             particles := [⟨0, 0, 0, 0, 1 / Real.sqrt (2 * Real.pi)⟩,
                           ⟨1, 1, 0, 0, Real.exp (-0.5) / Real.sqrt (2 * Real.pi)⟩],
             weights := [1 / Real.sqrt (2 * Real.pi),
                         Real.exp (-0.5) / Real.sqrt (2 * Real.pi)] } := by
    simp [updateWeights, updateWeights_step, predicted_landmarks, dataAssociation,
      dataAssociation_inner, weight_loop, at_index, h50, h0, List.range_succ]
  exact ⟨rfl, rfl, hrun,
    (updateWeights_weight_independent 50 (fun _ => 1) [⟨-1, 0, 0⟩] ⟨[⟨5, 0, 0⟩]⟩
      { num_particles := 2, is_initialized := true,
        particles := [⟨0, 0, 0, 0, 1⟩, ⟨1, 1, 0, 0, 1⟩], weights := [1, 1] } rfl rfl).1
      _ hrun 1 ⟨1, 1, 0, 0, 1⟩ rfl⟩

/-! ## Claims on the candidate list -/

section Candidates

variable {α : Type} [LinearOrderedField α]

/-- The loop that fills `predicted_landmarks`, started with any list already
built: it appends, in map order, the projection of each landmark in range. -/
theorem predicted_landmarks_loop (M : Libm α) (sensor_range : α)
    (current_x current_y current_theta : α) (l : List (single_landmark_s α)) :
    ∀ acc : List (LandmarkObs α),
      l.foldl (fun acc lm =>
        if M.sqrt ((lm.x_f - current_x) ^ 2 + (lm.y_f - current_y) ^ 2) ≤ sensor_range then
          acc ++ [(⟨lm.id_i,
            (lm.x_f - current_x) * M.cos current_theta +
              (lm.y_f - current_y) * M.sin current_theta,
            (lm.y_f - current_y) * M.cos current_theta -
              (lm.x_f - current_x) * M.sin current_theta⟩ : LandmarkObs α)]
        else acc) acc =
      acc ++ (l.filter fun lm =>
          decide (M.sqrt ((lm.x_f - current_x) ^ 2 + (lm.y_f - current_y) ^ 2) ≤
            sensor_range)).map fun lm =>
        (⟨lm.id_i,
          (lm.x_f - current_x) * M.cos current_theta +
            (lm.y_f - current_y) * M.sin current_theta,
          (lm.y_f - current_y) * M.cos current_theta -
            (lm.x_f - current_x) * M.sin current_theta⟩ : LandmarkObs α) := by
  induction l with
  | nil => intro acc; simp
  | cons lm rest ih =>
    intro acc
    rw [List.foldl_cons, ih]
    by_cases h : M.sqrt ((lm.x_f - current_x) ^ 2 + (lm.y_f - current_y) ^ 2) ≤ sensor_range
    · simp [h, List.filter_cons]
    · simp [h, List.filter_cons]

theorem predicted_landmarks_eq (M : Libm α) (sensor_range : α) (map_landmarks : Map α)
    (current_x current_y current_theta : α) :
    predicted_landmarks M sensor_range map_landmarks current_x current_y current_theta =
      (map_landmarks.landmark_list.filter fun lm =>
          decide (M.sqrt ((lm.x_f - current_x) ^ 2 + (lm.y_f - current_y) ^ 2) ≤
            sensor_range)).map fun lm =>
        (⟨lm.id_i,
          (lm.x_f - current_x) * M.cos current_theta +
            (lm.y_f - current_y) * M.sin current_theta,
          (lm.y_f - current_y) * M.cos current_theta -
            (lm.x_f - current_x) * M.sin current_theta⟩ : LandmarkObs α) := by
  have h := predicted_landmarks_loop M sensor_range current_x current_y current_theta
    map_landmarks.landmark_list []
  rw [List.nil_append] at h
  exact h

end Candidates

/-- C12: the candidate list `updateWeights` builds for a particle at
`(px, py, theta)` holds, in map order, exactly the landmarks whose distance
`sqrt(dx^2 + dy^2)` to the particle is at most `sensor_range` (boundary
included), `dx = lx - px`, `dy = ly - py`, each with its map id and the
coordinates `(dx*cos(theta) + dy*sin(theta), dy*cos(theta) - dx*sin(theta))`. -/
theorem predicted_landmarks_in_range (sensor_range : ℝ) (map_landmarks : Map ℝ)
    (px py theta : ℝ) :
    predicted_landmarks (Libm.mk Real.sqrt Real.sin Real.cos Real.exp Real.pi)
        sensor_range map_landmarks px py theta =
      (map_landmarks.landmark_list.filter fun lm =>
          decide (Real.sqrt ((lm.x_f - px) ^ 2 + (lm.y_f - py) ^ 2) ≤ sensor_range)).map
        fun lm =>
          (⟨lm.id_i,
            (lm.x_f - px) * Real.cos theta + (lm.y_f - py) * Real.sin theta,
            (lm.y_f - py) * Real.cos theta - (lm.x_f - px) * Real.sin theta⟩ :
            LandmarkObs ℝ) := by
  exact predicted_landmarks_eq _ sensor_range map_landmarks px py theta

/-! ## Claims on `init` -/

/-- C13: `init` on a fresh filter, for every estimate, every standard-deviation
vector and every outcome of the draws, sets `num_particles` to 200 and
`is_initialized` to true and leaves 200 particles, the `i`-th with id `i` and
weight 1, and 200 weights all equal to 1; when the three standard deviations
are 0 and a draw with deviation 0 returns its mean, every particle has the
pose of the estimate. -/
theorem init_populates (draw : NormalDraw ℝ) (x y theta : ℝ) (std : Nat → ℝ) :
    (init draw x y theta std (fresh ℝ)).num_particles = 200 ∧
    (init draw x y theta std (fresh ℝ)).is_initialized = true ∧
    (init draw x y theta std (fresh ℝ)).particles.length = 200 ∧
    (init draw x y theta std (fresh ℝ)).weights.length = 200 ∧
    (∀ i : Nat, i < 200 → ∃ p : Particle ℝ,
      (init draw x y theta std (fresh ℝ)).particles[i]? = some p ∧
      p.id = (i : Int) ∧ p.weight = 1) ∧
    (∀ i : Nat, i < 200 → (init draw x y theta std (fresh ℝ)).weights[i]? = some 1) ∧
    (std 0 = 0 → std 1 = 0 → std 2 = 0 →
      (∀ (i k : Nat) (mean : ℝ), draw i k mean 0 = mean) →
      ∀ i : Nat, i < 200 →
        (init draw x y theta std (fresh ℝ)).particles[i]? =
          some ⟨(i : Int), x, y, theta, 1⟩) := by
  rw [init_fresh]
  refine ⟨rfl, rfl, ?_, ?_, ?_, ?_, ?_⟩
  · simp only [List.length_map, List.length_range]
  · simp only [List.length_replicate]
  · intro i hi
    refine ⟨⟨(i : Int), draw i 0 x (std 0), draw i 1 y (std 1), draw i 2 theta (std 2), 1⟩,
      ?_, rfl, rfl⟩
    simp only [List.getElem?_map, List.getElem?_range hi, Option.map_some', Int.ofNat_eq_coe]
  · intro i hi
    simp only [List.getElem?_replicate, hi, if_true]
  · intro h0 h1 h2 hd i hi
    simp only [List.getElem?_map, List.getElem?_range hi, Option.map_some', Int.ofNat_eq_coe,
      h0, h1, h2, hd]

/-- C13, on an example: the estimate `(3, 4, 5)` with zero deviations and draws
that return their mean; the particle at position 7 is `(7, 3, 4, 5, 1)`. -/
theorem init_populates_witness :
    ((fun _ => (0 : ℝ)) 0 = 0) ∧
    (∀ (i k : Nat) (mean : ℝ), (fun (_ _ : Nat) (m _ : ℝ) => m) i k mean 0 = mean) ∧
    (init (fun _ _ m _ => m) 3 4 5 (fun _ => 0) (fresh ℝ)).particles[7]? =
      some ⟨7, 3, 4, 5, 1⟩ ∧
    (init (fun (_ _ : Nat) (m _ : ℝ) => m) 3 4 5 (fun _ => 0) (fresh ℝ)).weights[7]? =
      some 1 :=
  ⟨rfl, fun _ _ _ => rfl,
    (init_populates (fun _ _ m _ => m) 3 4 5 (fun _ => 0)).2.2.2.2.2.2 rfl rfl rfl
      (fun _ _ _ => rfl) 7 (by norm_num),
    (init_populates (fun _ _ m _ => m) 3 4 5 (fun _ => 0)).2.2.2.2.2.1 7 (by norm_num)⟩

/-! ## Further claims on `dataAssociation` -/

/-- C15: `dataAssociation` writes id fields only.  For every candidate list and
every observation list the result has the length of the input and the same
`(x, y)` at every position, and with an empty candidate list the result is
the input itself, ids included. -/
theorem dataAssociation_changes_ids_only
    (predicted observations : List (LandmarkObs ℝ)) :
    (dataAssociation (Libm.mk Real.sqrt Real.sin Real.cos Real.exp Real.pi)
        predicted observations).length = observations.length ∧
    (∀ (n : Nat) (o : LandmarkObs ℝ), observations[n]? = some o →
      ∃ o' : LandmarkObs ℝ,
        (dataAssociation (Libm.mk Real.sqrt Real.sin Real.cos Real.exp Real.pi)
          predicted observations)[n]? = some o' ∧ o'.x = o.x ∧ o'.y = o.y) ∧
    dataAssociation (Libm.mk Real.sqrt Real.sin Real.cos Real.exp Real.pi)
      [] observations = observations := by
  refine ⟨dataAssociation_length _ _ _, ?_, dataAssociation_nil _ _⟩
  intro n o hn
  refine ⟨{ o with id := (dataAssociation_inner
    (Libm.mk Real.sqrt Real.sin Real.cos Real.exp Real.pi) o.x o.y
    predicted 0 0 false o.id).2.2 }, ?_, rfl, rfl⟩
  rw [dataAssociation_getElem?, hn, Option.map_some']

/-- C16: index safety of the weight step.  For a non-empty candidate list,
after `dataAssociation` every observation's id is a position of the list,
`0 ≤ id < predicted_landmarks.size()`, whatever id it carried before, so every
lookup `predicted_landmarks[l_id]` of the weight loop is in range and the
loop yields a weight. -/
theorem dataAssociation_ids_in_range (std_landmark : Nat → ℝ)
    (predicted observations : List (LandmarkObs ℝ)) (hne : predicted ≠ []) :
    (∀ o' ∈ dataAssociation (Libm.mk Real.sqrt Real.sin Real.cos Real.exp Real.pi)
        predicted observations,
      0 ≤ o'.id ∧ o'.id < (predicted.length : Int) ∧
      ∃ c : LandmarkObs ℝ, at_index predicted o'.id = some c) ∧
    ∃ w : ℝ,
      weight_loop (Libm.mk Real.sqrt Real.sin Real.cos Real.exp Real.pi) std_landmark
        predicted
        (dataAssociation (Libm.mk Real.sqrt Real.sin Real.cos Real.exp Real.pi)
          predicted observations) 1 = some w := by
  refine ⟨?_, ?_⟩
  · intro o' ho'
    simp only [dataAssociation, List.mem_map] at ho'
    obtain ⟨o, _, rfl⟩ := ho'
    obtain ⟨k, c, hid, hk, _, _⟩ := dataAssociation_inner_nearest
      (Libm.mk Real.sqrt Real.sin Real.cos Real.exp Real.pi) o.x o.y predicted hne o.id
    have hkl : k < predicted.length := (List.getElem?_eq_some_iff.1 hk).1
    simp only [hid]
    exact ⟨Int.natCast_nonneg k, Int.ofNat_lt.2 hkl, c, by rw [at_index_natCast]; exact hk⟩
  · obtain ⟨matched, _, hw⟩ := weight_loop_matched
      (Libm.mk Real.sqrt Real.sin Real.cos Real.exp Real.pi) std_landmark predicted
      (fun o => { o with id := (dataAssociation_inner
        (Libm.mk Real.sqrt Real.sin Real.cos Real.exp Real.pi) o.x o.y
        predicted 0 0 false o.id).2.2 })
      (fun _ => rfl) (fun _ => rfl)
      (fun o => by
        obtain ⟨k, c, hid, hk, _, _⟩ := dataAssociation_inner_nearest
          (Libm.mk Real.sqrt Real.sin Real.cos Real.exp Real.pi) o.x o.y predicted hne o.id
        exact ⟨k, c, hid, hk⟩)
      observations 1
    exact ⟨_, hw⟩

/-- C16, on an example: observations that come with the ids -5 and 99 leave
`dataAssociation` with the ids 0 and 1 for the two candidates. -/
theorem dataAssociation_ids_in_range_witness :
    ([⟨7, 0, 0⟩, ⟨8, 10, 10⟩] : List (LandmarkObs ℝ)) ≠ [] ∧
    dataAssociation (Libm.mk Real.sqrt Real.sin Real.cos Real.exp Real.pi)
      [⟨7, 0, 0⟩, ⟨8, 10, 10⟩] [⟨-5, 1, 1⟩, ⟨99, 9, 9⟩] = [⟨0, 1, 1⟩, ⟨1, 9, 9⟩] ∧
    (∀ o' ∈ dataAssociation (Libm.mk Real.sqrt Real.sin Real.cos Real.exp Real.pi)
        [⟨7, 0, 0⟩, ⟨8, 10, 10⟩] [⟨-5, 1, 1⟩, ⟨99, 9, 9⟩],
      0 ≤ o'.id ∧
      o'.id < (([⟨7, 0, 0⟩, ⟨8, 10, 10⟩] : List (LandmarkObs ℝ)).length : Int) ∧
      ∃ c : LandmarkObs ℝ,
        at_index ([⟨7, 0, 0⟩, ⟨8, 10, 10⟩] : List (LandmarkObs ℝ)) o'.id = some c) := by
  refine ⟨by simp, ?_, (dataAssociation_ids_in_range (fun _ => 1)
    [⟨7, 0, 0⟩, ⟨8, 10, 10⟩] [⟨-5, 1, 1⟩, ⟨99, 9, 9⟩] (by simp)).1⟩
  have h1 : ¬ (Real.sqrt ((1 - 10) ^ 2 + (1 - 10) ^ 2) < Real.sqrt (1 + 1)) :=
    not_lt.2 (Real.sqrt_le_sqrt (by norm_num))
  have h2 : Real.sqrt ((9 - 10) ^ 2 + (9 - 10) ^ 2) < Real.sqrt (9 ^ 2 + 9 ^ 2) :=
    Real.sqrt_lt_sqrt (by norm_num) (by norm_num)
  simp [dataAssociation, dataAssociation_inner, h1, h2]

/-! ## Claims on the projection and on the frame of `updateWeights` -/

/-- C17: the projection of `updateWeights` preserves the distance to the
particle.  For every pose and every landmark the stored candidate satisfies
`local_x^2 + local_y^2 = dx^2 + dy^2` (shown on the map that holds that
landmark, with the range equal to its distance), and so every candidate the
range filter keeps lies within `sensor_range` of the origin of the local frame. -/
theorem projection_preserves_distance (sensor_range : ℝ) (map_landmarks : Map ℝ)
    (px py theta : ℝ) :
    (∀ lm : single_landmark_s ℝ, ∃ c : LandmarkObs ℝ,
      predicted_landmarks (Libm.mk Real.sqrt Real.sin Real.cos Real.exp Real.pi)
        (Real.sqrt ((lm.x_f - px) ^ 2 + (lm.y_f - py) ^ 2)) ⟨[lm]⟩ px py theta = [c] ∧
      c.id = lm.id_i ∧
      c.x ^ 2 + c.y ^ 2 = (lm.x_f - px) ^ 2 + (lm.y_f - py) ^ 2) ∧
    (∀ c ∈ predicted_landmarks (Libm.mk Real.sqrt Real.sin Real.cos Real.exp Real.pi)
        sensor_range map_landmarks px py theta,
      Real.sqrt (c.x ^ 2 + c.y ^ 2) ≤ sensor_range) := by
  have hrot : ∀ dx dy : ℝ,
      (dx * Real.cos theta + dy * Real.sin theta) ^ 2 +
        (dy * Real.cos theta - dx * Real.sin theta) ^ 2 = dx ^ 2 + dy ^ 2 := by
    intro dx dy
    linear_combination (dx ^ 2 + dy ^ 2) * Real.sin_sq_add_cos_sq theta
  refine ⟨?_, ?_⟩
  · intro lm
    refine ⟨⟨lm.id_i,
      (lm.x_f - px) * Real.cos theta + (lm.y_f - py) * Real.sin theta,
      (lm.y_f - py) * Real.cos theta - (lm.x_f - px) * Real.sin theta⟩, ?_, rfl, hrot _ _⟩
    simp only [predicted_landmarks, List.foldl_cons, List.foldl_nil, le_refl, if_true,
      List.nil_append]
  · intro c hc
    rw [predicted_landmarks_eq] at hc
    obtain ⟨lm, hlm, rfl⟩ := List.mem_map.1 hc
    have hin := (List.mem_filter.1 hlm).2
    simp only [decide_eq_true_eq] at hin
    simp only [hrot]
    exact hin

section Frame

variable {α : Type} [LinearOrderedField α]

/-- One iteration of the particle loop of `updateWeights` that has a result keeps
the length of both vectors and, at every position, every field of the
particle but `weight`. -/
theorem updateWeights_step_frame (M : Libm α) (sensor_range : α) (std_landmark : Nat → α)
    (map_landmarks : Map α) (s s' : UpdateState α) (i : Nat)
    (h : updateWeights_step M sensor_range std_landmark map_landmarks s i = some s') :
    s'.weights.length = s.weights.length ∧
    s'.particles.map (fun p => (p.id, p.x, p.y, p.theta)) =
      s.particles.map (fun p => (p.id, p.x, p.y, p.theta)) := by
  cases hp : s.particles[i]? with
  | none => simp [updateWeights_step, hp] at h
  | some p =>
    rw [updateWeights_step_eq M sensor_range std_landmark map_landmarks s i p hp] at h
    cases hw : weight_loop M std_landmark (candidates M sensor_range map_landmarks p)
        (dataAssociation M (candidates M sensor_range map_landmarks p) s.observations) 1 with
    | none => simp [hw] at h
    | some w =>
      simp only [hw] at h
      by_cases hi : i < s.weights.length
      · simp only [hi, if_true, Option.some.injEq] at h
        rw [← h]
        refine ⟨by simp, ?_⟩
        apply List.ext_getElem?
        intro n
        simp only [List.getElem?_map, List.getElem?_set]
        by_cases hin : i = n
        · subst hin
          have hil : i < s.particles.length := (List.getElem?_eq_some_iff.1 hp).1
          simp [hil, hp]
        · simp [hin]
      · simp [hi] at h

theorem updateWeights_loop_frame (M : Libm α) (sensor_range : α) (std_landmark : Nat → α)
    (map_landmarks : Map α) (l : List Nat) :
    ∀ s s' : UpdateState α,
      l.foldlM (updateWeights_step M sensor_range std_landmark map_landmarks) s = some s' →
      s'.weights.length = s.weights.length ∧
      s'.particles.map (fun p => (p.id, p.x, p.y, p.theta)) =
        s.particles.map (fun p => (p.id, p.x, p.y, p.theta)) := by
  induction l with
  | nil =>
    intro s s' h
    have hss : s = s' := by simpa using h
    rw [hss]
    exact ⟨rfl, rfl⟩
  | cons i rest ih =>
    intro s s' h
    rw [List.foldlM_cons] at h
    cases h1 : updateWeights_step M sensor_range std_landmark map_landmarks s i with
    | none => simp [h1] at h
    | some s1 =>
      rw [h1] at h
      obtain ⟨ha, hb⟩ := updateWeights_step_frame M sensor_range std_landmark
        map_landmarks s s1 i h1
      obtain ⟨hc, hd⟩ := ih s1 s' h
      exact ⟨hc.trans ha, hd.trans hb⟩

/-- Every call of `updateWeights` that has a result changes no field of the
filter but the weights, whatever `num_particles` is. -/
theorem updateWeights_frame (M : Libm α) (sensor_range : α) (std_landmark : Nat → α)
    (observations : List (LandmarkObs α)) (map_landmarks : Map α)
    (f f' : ParticleFilter α)
    (h : updateWeights M sensor_range std_landmark observations map_landmarks f = some f') :
    f'.num_particles = f.num_particles ∧ f'.is_initialized = f.is_initialized ∧
    f'.weights.length = f.weights.length ∧
    f'.particles.map (fun p => (p.id, p.x, p.y, p.theta)) =
      f.particles.map (fun p => (p.id, p.x, p.y, p.theta)) := by
  unfold updateWeights at h
  cases hl : (List.range f.num_particles).foldlM
      (updateWeights_step M sensor_range std_landmark map_landmarks)
      { observations := observations, particles := f.particles, weights := f.weights } with
  | none => simp [hl] at h
  | some s =>
    simp only [hl, Option.some.injEq] at h
    obtain ⟨ha, hb⟩ := updateWeights_loop_frame M sensor_range std_landmark map_landmarks
      _ _ s hl
    rw [← h]
    exact ⟨rfl, rfl, ha, hb⟩

end Frame

/-- C18: `updateWeights` changes only weights.  For every input on which the
call has a result, `num_particles` and `is_initialized` are unchanged, both
vectors keep their length, and the particle at every position keeps its id,
x, y and theta, so the order of the particle set is the same; only the
`weight` fields and the entries of `weights` are written. -/
theorem updateWeights_changes_weights_only (sensor_range : ℝ) (std_landmark : Nat → ℝ)
    (observations : List (LandmarkObs ℝ)) (map_landmarks : Map ℝ)
    (f f' : ParticleFilter ℝ)
    (hrun : updateWeights (Libm.mk Real.sqrt Real.sin Real.cos Real.exp Real.pi)
      sensor_range std_landmark observations map_landmarks f = some f') :
    f'.num_particles = f.num_particles ∧ f'.is_initialized = f.is_initialized ∧
    f'.particles.length = f.particles.length ∧ f'.weights.length = f.weights.length ∧
    ∀ (i : Nat) (p : Particle ℝ), f.particles[i]? = some p →
      ∃ w : ℝ, f'.particles[i]? = some { p with weight := w } := by
  obtain ⟨hn, hb, hw, hmap⟩ := updateWeights_frame _ sensor_range std_landmark
    observations map_landmarks f f' hrun
  refine ⟨hn, hb, ?_, hw, ?_⟩
  · have := congrArg List.length hmap
    simpa using this
  · intro i p hp
    have hi := congrArg (fun l => l[i]?) hmap
    simp only [List.getElem?_map, hp, Option.map_some'] at hi
    cases hp' : f'.particles[i]? with
    | none => simp [hp'] at hi
    | some p' =>
      simp only [hp', Option.map_some', Option.some.injEq, Prod.mk.injEq] at hi
      obtain ⟨h1, h2, h3, h4⟩ := hi
      refine ⟨p'.weight, ?_⟩
      cases p'
      cases p
      simp only at h1 h2 h3 h4
      simp [h1, h2, h3, h4]

/-- C18, on an example: two particles, at the origin and at `(1, 0)`, one
landmark and one observation at the origin; after the call both particles
have their id and pose and new weights. -/
theorem updateWeights_changes_weights_only_witness :
    (updateWeights (Libm.mk Real.sqrt Real.sin Real.cos Real.exp Real.pi) 50 (fun _ => 1)
        [⟨-1, 0, 0⟩] ⟨[⟨5, 0, 0⟩]⟩
        { num_particles := 2, is_initialized := true,
          particles := [⟨0, 0, 0, 0, 1⟩, ⟨1, 1, 0, 0, 1⟩], weights := [1, 1] } =
      some { num_particles := 2, is_initialized := true,
             particles := [⟨0, 0, 0, 0, 1 / Real.sqrt (2 * Real.pi)⟩,
                           ⟨1, 1, 0, 0, Real.exp (-0.5) / Real.sqrt (2 * Real.pi)⟩],
             weights := [1 / Real.sqrt (2 * Real.pi),
                         Real.exp (-0.5) / Real.sqrt (2 * Real.pi)] }) ∧
    ∀ (i : Nat) (p : Particle ℝ),
      ([⟨0, 0, 0, 0, 1⟩, ⟨1, 1, 0, 0, 1⟩] : List (Particle ℝ))[i]? = some p →
      ∃ w : ℝ,
        ([⟨0, 0, 0, 0, 1 / Real.sqrt (2 * Real.pi)⟩,
          ⟨1, 1, 0, 0, Real.exp (-0.5) / Real.sqrt (2 * Real.pi)⟩] :
            List (Particle ℝ))[i]? = some { p with weight := w } := by
  have h50 : (1 : ℝ) ≤ 50 := by norm_num
  have h0 : (0 : ℝ) ≤ 50 := by norm_num
  have hrun : updateWeights (Libm.mk Real.sqrt Real.sin Real.cos Real.exp Real.pi) 50
        (fun _ => 1) [⟨-1, 0, 0⟩] ⟨[⟨5, 0, 0⟩]⟩
        { num_particles := 2, is_initialized := true,
          particles := [⟨0, 0, 0, 0, 1⟩, ⟨1, 1, 0, 0, 1⟩], weights := [1, 1] } =
      some { num_particles := 2, is_initialized := true,
             particles := [⟨0, 0, 0, 0, 1 / Real.sqrt (2 * Real.pi)⟩,
                           ⟨1, 1, 0, 0, Real.exp (-0.5) / Real.sqrt (2 * Real.pi)⟩],
             weights := [1 / Real.sqrt (2 * Real.pi),
                         Real.exp (-0.5) / Real.sqrt (2 * Real.pi)] } := by
    simp [updateWeights, updateWeights_step, predicted_landmarks, dataAssociation,
      dataAssociation_inner, weight_loop, at_index, h50, h0, List.range_succ]
  exact ⟨hrun, (updateWeights_changes_weights_only 50 (fun _ => 1) [⟨-1, 0, 0⟩]
    ⟨[⟨5, 0, 0⟩]⟩ _ _ hrun).2.2.2.2⟩

end PF
